import Mathlib

/-!
Shallow embedding of the matchmaking coordinator of the dota-inhouse
repository (package `internal/coordinator`: `coordinator.go`, `state.go`,
`commands.go`).  The coordinator is a single-writer command processor: each
command is validated against the current state, mutates it, and emits events.
Here every handler is a pure function from a state (plus the environment
inputs the Go code draws at runtime: `uuid.New()`, `time.Now()`, and the
`rand.Shuffle` outcome used by captain selection) to a new state, an event
list, and an optional error (the value sent on the command's reply channel).

`MaxPlayers` is a package variable in the source (default 10, overridable via
the environment); it is a parameter `mp` throughout.  Durations are in
seconds; `time.Time` values are modelled as `Nat`.
-/

namespace DotaInhouse

/-- Player snapshot (`state.go`).  The repository's current version also
carries the integer `CaptainPriority` weight used by `selectCaptains` in
`coordinator.go` (see also `CaptainPriority int` on the stored user in
`store.go`); the copy of `state.go` without it predates that. -/
structure Player where
  steamID : String
  name : String
  avatarURL : String
  captainPriority : Int
deriving DecidableEq, Repr

/-- Go zero value of `Player`. -/
instance : Inhabited Player := ⟨⟨"", "", "", 0⟩⟩

/-- Match lifecycle phase (`state.go`). -/
inductive MatchState where
  | accepting
  | drafting
  | waitingForBot
  | inProgress
deriving DecidableEq, Repr

/-- An in-flight match (`state.go`).  `AcceptedPlayers map[string]bool` only
ever has keys set to `true`, so it is modelled as the list of accepted ids
(no duplicates arise because insertion is guarded by membership). -/
structure Match where
  id : String
  state : MatchState
  players : List Player
  acceptedPlayers : List String
  acceptDeadline : Nat
  captains : Player × Player
  radiant : List Player
  dire : List Player
  availablePlayers : List Player
  currentPicker : Nat
  pickCount : Nat
  dotaMatchID : Nat
deriving DecidableEq, Repr

/-- Modelled from the spec: the lobby-settings record (its defining file is
not among the sources; the admin HTTP handler constructs it with a single
`GameMode` field, and the spec lists "valid game-mode identifiers" and a
default mode as the whole configuration surface). -/
structure LobbySettings where
  gameMode : String
deriving DecidableEq, Repr

/-- Modelled from the spec: `ValidGameModes` (its defining file is not among
the sources).  The closed set of game-mode identifiers; the event comment in
the source lists "cm", "ap", "cd", "rd", "ar". -/
def ValidGameModes : List String := ["cm", "ap", "cd", "rd", "ar"]

/-- All mutable coordinator state (`state.go`, current version: queue,
matches keyed by match id, lobby settings). -/
structure State where
  queue : List Player
  «matches» : List (String × Match)
  lobbySettings : LobbySettings
deriving DecidableEq, Repr

/-- `NewState` (`state.go`): empty queue and match table. -/
def initialState : State :=
  { queue := [], «matches» := [], lobbySettings := { gameMode := "" } }

/-- `State.IsPlayerInQueue` (`state.go`). -/
def State.IsPlayerInQueue (s : State) (steamID : String) : Bool :=
  s.queue.any (fun p => p.steamID == steamID)

/-- Roster membership scan used by `GetPlayerMatch` and `handleAcceptMatch`. -/
def Match.hasPlayer (m : Match) (steamID : String) : Bool :=
  m.players.any (fun p => p.steamID == steamID)

/-- `State.IsPlayerInMatch` (`state.go`): some match roster contains the id. -/
def State.IsPlayerInMatch (s : State) (steamID : String) : Bool :=
  s.«matches».any (fun km => km.2.hasPlayer steamID)

/-- `State.GetMatch` (`state.go`): map lookup by match id. -/
def State.GetMatch (s : State) (matchID : String) : Option Match :=
  (s.«matches».find? (fun km => km.1 == matchID)).map (fun km => km.2)

/-- `State.RemoveFromQueue` (`state.go`): drop the first queue entry with the
id, reporting whether one was found. -/
def removeFirstById (steamID : String) : List Player → Option (List Player)
  | [] => none
  | p :: ps =>
    if p.steamID == steamID then some ps
    else (removeFirstById steamID ps).map (fun qs => p :: qs)

/-- Go map assignment `Matches[k] = m`: replace the first entry with key `k`
in place, or append when the key is absent. -/
def setMatch (k : String) (m : Match) : List (String × Match) → List (String × Match)
  | [] => [(k, m)]
  | km :: rest =>
    if km.1 == k then (k, m) :: rest else km :: setMatch k m rest

/-- Go map deletion `delete(Matches, k)`. -/
def eraseMatch (k : String) (ms : List (String × Match)) : List (String × Match) :=
  ms.filter (fun km => km.1 ≠ k)

/-- Events emitted by the coordinator, with the payloads `coordinator.go`
actually populates (`events.go`). -/
inductive Event where
  | queueUpdated (queue : List Player)
  | matchAcceptStarted (matchID : String) (players : List Player) (deadline : Nat)
  | matchAcceptUpdated (matchID : String) (accepted : List String)
  | playerFailedAccept (playerID : String)
  | matchCancelled (matchID : String) (failedPlayers : List Player)
  | draftStarted (matchID : String) (captains : Player × Player)
      (radiant dire available : List Player)
  | draftUpdated (matchID : String) (captains : Player × Player)
      (availablePlayers radiant dire : List Player) (currentPicker : Nat)
  | requestBotLobby (matchID : String) (players radiant dire : List Player)
      (gameMode : String)
  | matchStarted (matchID : String) (dotaMatchID : Nat)
      (players radiant dire : List Player) (captains : Player × Player)
  | matchCompleted (matchID : String) (dotaMatchID : Nat)
      (players radiant dire : List Player) (winner : Option String)
  | draftCancelled (matchID : String) (failedCaptain : Player)
      (returnedToQueue : List Player)
  | lobbyCancelled (matchID : String) (failedPlayers returnedToQueue : List Player)
  | matchCancelledByAdmin (matchID : String) (returnedToQueue : Bool)
      (players : List Player)
deriving DecidableEq, Repr

/-- Commands (`commands.go`, current version; reply channels are modelled by
the returned error).  `Winner` on `botGameEnded` is the `*string` field. -/
inductive Command where
  | joinQueue (player : Player)
  | leaveQueue (playerID : String)
  | acceptMatch (playerID matchID : String)
  | pickPlayer (captainID pickedID matchID : String)
  | matchAcceptTimeout (matchID : String) (startedAt : Nat)
  | botLobbyReady (matchID : String)
  | botGameStarted (matchID : String) (dotaMatchID : Nat)
  | botGameEnded (matchID : String) (dotaMatchID : Nat) (winner : Option String)
  | draftPickTimeout (matchID : String) (pickNumber : Nat)
  | botLobbyTimeout (matchID : String) (playersJoinedRight : List String)
  | adminCancelMatch (matchID : String) (returnToQueue : Bool)
  | adminSetMatchResult (matchID winner : String)
  | adminKickFromQueue (playerID : String)
  | adminSetLobbySettings (settings : LobbySettings)
deriving DecidableEq, Repr

/-- Runtime inputs a single command handling may draw: the fresh match id
from `uuid.New()`, the clock value `time.Now()`, and the post-`rand.Shuffle`
roster order consumed by `selectCaptains`. -/
structure Env where
  newId : String
  now : Nat
  shuffled : List Player
deriving Repr

/-- `MatchAcceptTimeoutDur` (30s). -/
def MatchAcceptTimeoutDur : Nat := 30

/-- `DraftPickTimeoutDur` (60s). -/
def DraftPickTimeoutDur : Nat := 60

/-- Result of handling one command: next state, events emitted in order, and
the error sent on the reply channel (`none` = success / fire-and-forget). -/
structure Outcome where
  state : State
  events : List Event
  err : Option String
deriving DecidableEq, Repr

/-- `startMatchAcceptance` (`coordinator.go`): pop `MaxPlayers` players off
the queue front into a fresh match in the Accepting phase, with deadline
`now + MatchAcceptTimeoutDur`, and emit `QueueUpdated` then
`MatchAcceptStarted`.  The spawned timer goroutine later re-enters as a
`matchAcceptTimeout` command carrying `StartedAt = deadline - dur = now`. -/
def startMatchAcceptance (mp : Nat) (env : Env) (s : State) : State × List Event :=
  let players := s.queue.take mp
  let queue' := s.queue.drop mp
  let deadline := env.now + MatchAcceptTimeoutDur
  let m : Match :=
    { id := env.newId, state := .accepting, players := players,
      acceptedPlayers := [], acceptDeadline := deadline,
      captains := (default, default), radiant := [], dire := [],
      availablePlayers := [], currentPicker := 0, pickCount := 0,
      dotaMatchID := 0 }
  ({ s with queue := queue', «matches» := setMatch env.newId m s.«matches» },
   [.queueUpdated queue', .matchAcceptStarted env.newId players deadline])

/-- The `if len(Queue) >= MaxPlayers { startMatchAcceptance() }` check that
ends every handler able to grow the queue. -/
def checkQueue (mp : Nat) (env : Env) (s : State) : State × List Event :=
  if mp ≤ s.queue.length then startMatchAcceptance mp env s else (s, [])

/-- Stable insertion into a descending-priority run, preserving the order of
earlier-inserted equal-priority players. -/
def insertByPrio (p : Player) : List Player → List Player
  | [] => [p]
  | q :: qs =>
    if q.captainPriority ≥ p.captainPriority then q :: insertByPrio p qs
    else p :: q :: qs

/-- `sort.SliceStable(sorted, prio desc)` in `selectCaptains`: a stable sort
by descending captain priority. -/
def sortByPrioDesc (l : List Player) : List Player :=
  l.foldl (fun acc p => insertByPrio p acc) []

/-- `selectCaptains` (`coordinator.go`).  It receives the roster after
`rand.Shuffle` (the `shuffled` environment input), guards rosters of fewer
than two players with the zero value, stably sorts by priority descending and
takes the top two. -/
def selectCaptains (shuffled : List Player) : Player × Player :=
  if shuffled.length < 2 then (default, default)
  else
    let sorted := sortByPrioDesc shuffled
    (sorted.getD 0 default, sorted.getD 1 default)

/-- `Captains[CurrentPicker]` indexing (`CurrentPicker` is always 0 or 1). -/
def capAt (i : Nat) (c : Player × Player) : Player :=
  if i = 0 then c.1 else c.2

/-- `getPickerForPickCount` (`coordinator.go`): the 1-2-2-2-1 draft order,
falling back to parity beyond pick 7. -/
def getPickerForPickCount (pickCount : Nat) : Nat :=
  if pickCount = 0 then 0
  else if pickCount = 1 ∨ pickCount = 2 then 1
  else if pickCount = 3 ∨ pickCount = 4 then 0
  else if pickCount = 5 ∨ pickCount = 6 then 1
  else if pickCount = 7 then 0
  else pickCount % 2

/-- `completeDraft` (`coordinator.go`): move the match to WaitingForBot and
emit `RequestBotLobby` with the lobby settings' game mode. -/
def completeDraft (s : State) (m : Match) : State × List Event :=
  let m' := { m with state := .waitingForBot }
  ({ s with «matches» := setMatch m.id m' s.«matches» },
   [.requestBotLobby m.id m.players m.radiant m.dire s.lobbySettings.gameMode])

/-- `startDraft` (`coordinator.go`): guard the Accepting phase, select
captains from the shuffled roster, seed Radiant/Dire with them, put everyone
else in the available pool, emit `DraftStarted`, and complete immediately if
nothing remains to pick (the pick timer is armed otherwise, with no state
effect here). -/
def startDraft (env : Env) (s : State) (m : Match) : State × List Event :=
  if m.state ≠ .accepting then (s, [])
  else
    let captains := selectCaptains env.shuffled
    let available := m.players.filter
      (fun p => p.steamID != captains.1.steamID && p.steamID != captains.2.steamID)
    let m' := { m with
      state := .drafting, captains := captains,
      radiant := [captains.1], dire := [captains.2],
      availablePlayers := available, currentPicker := 0, pickCount := 0 }
    let s1 := { s with «matches» := setMatch m.id m' s.«matches» }
    let evs := [Event.draftStarted m.id captains [captains.1] [captains.2] available]
    if available.isEmpty then
      let r := completeDraft s1 m'
      (r.1, evs ++ r.2)
    else (s1, evs)

/-- `handleJoinQueue` (`coordinator.go`). -/
def handleJoinQueue (mp : Nat) (env : Env) (s : State) (player : Player) : Outcome :=
  if s.IsPlayerInQueue player.steamID then ⟨s, [], some "already in queue"⟩
  else if s.IsPlayerInMatch player.steamID then ⟨s, [], some "already in a match"⟩
  else
    let queue' := s.queue ++ [player]
    let s1 := { s with queue := queue' }
    let r := checkQueue mp env s1
    ⟨r.1, Event.queueUpdated queue' :: r.2, none⟩

/-- `handleLeaveQueue` (`coordinator.go`). -/
def handleLeaveQueue (s : State) (playerID : String) : Outcome :=
  if s.IsPlayerInMatch playerID then
    ⟨s, [], some "cannot leave queue while in a match"⟩
  else
    match removeFirstById playerID s.queue with
    | none => ⟨s, [], some "not in queue"⟩
    | some queue' => ⟨{ s with queue := queue' }, [.queueUpdated queue'], none⟩

/-- `match.AcceptedPlayers[id] = true`: key-set insertion into the accepted
map (a no-op when the id is already accepted). -/
def insertAccepted (playerID : String) (l : List String) : List String :=
  if playerID ∈ l then l else l ++ [playerID]

/-- `handleAcceptMatch` (`coordinator.go`). -/
def handleAcceptMatch (mp : Nat) (env : Env) (s : State)
    (playerID matchID : String) : Outcome :=
  match s.GetMatch matchID with
  | none => ⟨s, [], some "match not found"⟩
  | some m =>
    if m.state ≠ .accepting then ⟨s, [], some "match not in accepting state"⟩
    else if ¬ m.hasPlayer playerID then ⟨s, [], some "player not in this match"⟩
    else
      let accepted' := insertAccepted playerID m.acceptedPlayers
      let m' := { m with acceptedPlayers := accepted' }
      let s1 := { s with «matches» := setMatch matchID m' s.«matches» }
      let evs := [Event.matchAcceptUpdated m.id accepted']
      if mp ≤ accepted'.length then
        let r := startDraft env s1 m'
        ⟨r.1, evs ++ r.2, none⟩
      else ⟨s1, evs, none⟩

/-- `handleMatchAcceptTimeout` (`coordinator.go`).  Note: the command's
`StartedAt` token is bound but never consulted by the handler; only existence
and the Accepting phase are re-validated. -/
def handleMatchAcceptTimeout (mp : Nat) (env : Env) (s : State)
    (matchID : String) (_startedAt : Nat) : Outcome :=
  match s.GetMatch matchID with
  | none => ⟨s, [], none⟩
  | some m =>
    if m.state ≠ .accepting then ⟨s, [], none⟩
    else
      let acceptedPlayers := m.players.filter (fun p => p.steamID ∈ m.acceptedPlayers)
      let failedPlayers := m.players.filter (fun p => p.steamID ∉ m.acceptedPlayers)
      let queue' := acceptedPlayers ++ s.queue
      let s1 := { s with queue := queue', «matches» := eraseMatch matchID s.«matches» }
      let r := checkQueue mp env s1
      ⟨r.1,
        failedPlayers.map (fun p => Event.playerFailedAccept p.steamID)
          ++ [.matchCancelled matchID failedPlayers, .queueUpdated queue'] ++ r.2,
        none⟩

/-- The removal loop of `handlePickPlayer`: extract the first available
player with the given id, if any. -/
def extractPlayer (pickedID : String) : List Player → Option (Player × List Player)
  | [] => none
  | p :: ps =>
    if p.steamID == pickedID then some (p, ps)
    else (extractPlayer pickedID ps).map (fun r => (r.1, p :: r.2))

/-- `handlePickPlayer` (`coordinator.go`). -/
def handlePickPlayer (s : State) (captainID pickedID matchID : String) : Outcome :=
  match s.GetMatch matchID with
  | none => ⟨s, [], some "match not found"⟩
  | some m =>
    if m.state ≠ .drafting then ⟨s, [], some "match not in drafting state"⟩
    else if (capAt m.currentPicker m.captains).steamID ≠ captainID then
      ⟨s, [], some "not your turn to pick"⟩
    else
      match extractPlayer pickedID m.availablePlayers with
      | none => ⟨s, [], some "player not available for picking"⟩
      | some (picked, avail') =>
        let m1 := { m with availablePlayers := avail' }
        let m2 :=
          if m.currentPicker = 0 then { m1 with radiant := m1.radiant ++ [picked] }
          else { m1 with dire := m1.dire ++ [picked] }
        let m3 := { m2 with
          pickCount := m.pickCount + 1,
          currentPicker := getPickerForPickCount (m.pickCount + 1) }
        let s1 := { s with «matches» := setMatch m.id m3 s.«matches» }
        let evs := [Event.draftUpdated m.id m3.captains m3.availablePlayers
          m3.radiant m3.dire m3.currentPicker]
        if avail'.isEmpty then
          let r := completeDraft s1 m3
          ⟨r.1, evs ++ r.2, none⟩
        else ⟨s1, evs, none⟩

/-- `handleDraftPickTimeout` (`coordinator.go`): stale if the match is gone,
no longer drafting, or the pick count moved past the armed `PickNumber`. -/
def handleDraftPickTimeout (mp : Nat) (env : Env) (s : State)
    (matchID : String) (pickNumber : Nat) : Outcome :=
  match s.GetMatch matchID with
  | none => ⟨s, [], none⟩
  | some m =>
    if m.state ≠ .drafting then ⟨s, [], none⟩
    else if m.pickCount ≠ pickNumber then ⟨s, [], none⟩
    else
      let failedCaptain := capAt m.currentPicker m.captains
      let returnToQueue := m.players.filter (fun p => p.steamID != failedCaptain.steamID)
      let queue' := returnToQueue ++ s.queue
      let s1 := { s with queue := queue', «matches» := eraseMatch matchID s.«matches» }
      let r := checkQueue mp env s1
      ⟨r.1,
        [.draftCancelled matchID failedCaptain returnToQueue, .queueUpdated queue'] ++ r.2,
        none⟩

/-- `handleBotLobbyReady` (`coordinator.go`): lookup then log only. -/
def handleBotLobbyReady (s : State) (matchID : String) : Outcome :=
  match s.GetMatch matchID with
  | none => ⟨s, [], none⟩
  | some _ => ⟨s, [], none⟩

/-- `handleBotLobbyTimeout` (`coordinator.go`). -/
def handleBotLobbyTimeout (mp : Nat) (env : Env) (s : State)
    (matchID : String) (playersJoinedRight : List String) : Outcome :=
  match s.GetMatch matchID with
  | none => ⟨s, [], none⟩
  | some m =>
    if m.state ≠ .waitingForBot then ⟨s, [], none⟩
    else
      let returnToQueue := m.players.filter (fun p => p.steamID ∈ playersJoinedRight)
      let failedPlayers := m.players.filter (fun p => p.steamID ∉ playersJoinedRight)
      let queue' := returnToQueue ++ s.queue
      let s1 := { s with queue := queue', «matches» := eraseMatch matchID s.«matches» }
      let r := checkQueue mp env s1
      ⟨r.1,
        [.lobbyCancelled matchID failedPlayers returnToQueue, .queueUpdated queue'] ++ r.2,
        none⟩

/-- `handleBotGameStarted` (`coordinator.go`). -/
def handleBotGameStarted (s : State) (matchID : String) (dotaMatchID : Nat) : Outcome :=
  match s.GetMatch matchID with
  | none => ⟨s, [], none⟩
  | some m =>
    let m' := { m with state := .inProgress, dotaMatchID := dotaMatchID }
    ⟨{ s with «matches» := setMatch matchID m' s.«matches» },
      [.matchStarted matchID dotaMatchID m.players m.radiant m.dire m.captains], none⟩

/-- `handleBotGameEnded` (`coordinator.go`). -/
def handleBotGameEnded (mp : Nat) (env : Env) (s : State)
    (matchID : String) (dotaMatchID : Nat) (winner : Option String) : Outcome :=
  match s.GetMatch matchID with
  | none => ⟨s, [], none⟩
  | some m =>
    let s1 := { s with «matches» := eraseMatch matchID s.«matches» }
    let r := checkQueue mp env s1
    ⟨r.1,
      Event.matchCompleted matchID dotaMatchID m.players m.radiant m.dire winner :: r.2,
      none⟩

/-- The roster loop of `handleAdminCancelMatch`: append each player not
already in the (growing) queue. -/
def requeueAll (queue : List Player) : List Player → List Player
  | [] => queue
  | p :: ps =>
    if queue.any (fun x => x.steamID == p.steamID) then requeueAll queue ps
    else requeueAll (queue ++ [p]) ps

/-- `handleAdminCancelMatch` (`coordinator.go`). -/
def handleAdminCancelMatch (mp : Nat) (env : Env) (s : State)
    (matchID : String) (returnToQueue : Bool) : Outcome :=
  match s.GetMatch matchID with
  | none => ⟨s, [], some "match not found"⟩
  | some m =>
    let queue' := if returnToQueue then requeueAll s.queue m.players else s.queue
    let s1 := { s with queue := queue', «matches» := eraseMatch matchID s.«matches» }
    let r := checkQueue mp env s1
    ⟨r.1,
      [.matchCancelledByAdmin matchID returnToQueue m.players, .queueUpdated queue'] ++ r.2,
      none⟩

/-- `handleAdminSetMatchResult` (`coordinator.go`).  The winner-validation
error text is abridged here (the source message quotes the two values). -/
def handleAdminSetMatchResult (mp : Nat) (env : Env) (s : State)
    (matchID winner : String) : Outcome :=
  match s.GetMatch matchID with
  | none => ⟨s, [], some "match not found"⟩
  | some m =>
    if winner ≠ "radiant" ∧ winner ≠ "dire" then
      ⟨s, [], some "winner must be radiant or dire"⟩
    else
      let s1 := { s with «matches» := eraseMatch matchID s.«matches» }
      let r := checkQueue mp env s1
      ⟨r.1,
        Event.matchCompleted matchID m.dotaMatchID m.players m.radiant m.dire
          (some winner) :: r.2,
        none⟩

/-- `handleAdminKickFromQueue` (`coordinator.go`): the loop drops every queue
entry with the id and reports whether any was present. -/
def handleAdminKickFromQueue (s : State) (playerID : String) : Outcome :=
  let newQueue := s.queue.filter (fun p => p.steamID != playerID)
  if ¬ s.queue.any (fun p => p.steamID == playerID) then
    ⟨s, [], some "player not in queue"⟩
  else ⟨{ s with queue := newQueue }, [.queueUpdated newQueue], none⟩

/-- `handleAdminSetLobbySettings` (`coordinator.go`). -/
def handleAdminSetLobbySettings (s : State) (settings : LobbySettings) : Outcome :=
  if settings.gameMode ∉ ValidGameModes then ⟨s, [], some "invalid game mode"⟩
  else ⟨{ s with lobbySettings := settings }, [], none⟩

/-- `handleCommand` (`coordinator.go`): dispatch one command. -/
def processCommand (mp : Nat) (env : Env) (s : State) : Command → Outcome
  | .joinQueue player => handleJoinQueue mp env s player
  | .leaveQueue playerID => handleLeaveQueue s playerID
  | .acceptMatch playerID matchID => handleAcceptMatch mp env s playerID matchID
  | .pickPlayer captainID pickedID matchID =>
      handlePickPlayer s captainID pickedID matchID
  | .matchAcceptTimeout matchID startedAt =>
      handleMatchAcceptTimeout mp env s matchID startedAt
  | .botLobbyReady matchID => handleBotLobbyReady s matchID
  | .botGameStarted matchID dotaMatchID => handleBotGameStarted s matchID dotaMatchID
  | .botGameEnded matchID dotaMatchID winner =>
      handleBotGameEnded mp env s matchID dotaMatchID winner
  | .draftPickTimeout matchID pickNumber =>
      handleDraftPickTimeout mp env s matchID pickNumber
  | .botLobbyTimeout matchID playersJoinedRight =>
      handleBotLobbyTimeout mp env s matchID playersJoinedRight
  | .adminCancelMatch matchID returnToQueue =>
      handleAdminCancelMatch mp env s matchID returnToQueue
  | .adminSetMatchResult matchID winner =>
      handleAdminSetMatchResult mp env s matchID winner
  | .adminKickFromQueue playerID => handleAdminKickFromQueue s playerID
  | .adminSetLobbySettings settings => handleAdminSetLobbySettings s settings

/-- Side condition tying the environment to its use: the shuffled roster
handed to `selectCaptains` during an accept-driven draft start is a
permutation (the `rand.Shuffle` outcome) of the target match's roster.
Commands that never reach `selectCaptains` constrain nothing. -/
def EnvOk (env : Env) (s : State) : Command → Prop
  | .acceptMatch _ matchID =>
      ∀ m, s.GetMatch matchID = some m → env.shuffled.Perm m.players
  | _ => True

/-- States reachable from the empty initial state by processed commands. -/
inductive Reachable (mp : Nat) : State → Prop where
  | init : Reachable mp initialState
  | step {s : State} (c : Command) (env : Env) :
      Reachable mp s → EnvOk env s c →
      Reachable mp (processCommand mp env s c).state

/-- List-level version of `State.GetMatch`. -/
def lookupMatch (k : String) (ms : List (String × Match)) : Option Match :=
  (ms.find? (fun km => km.1 == k)).map (fun km => km.2)

/-- Multiset of steam ids on a match roster. -/
def rosterMS (m : Match) : Multiset String := (m.players.map Player.steamID : List String)

/-- Multiset of steam ids across all rosters of the match table. -/
def matchesMS : List (String × Match) → Multiset String
  | [] => 0
  | km :: rest => rosterMS km.2 + matchesMS rest

/-- Multiset of steam ids across the whole state: queue plus every roster.
The double-occupancy invariant is that this multiset has no duplicates. -/
def occMS (s : State) : Multiset String :=
  (s.queue.map Player.steamID : List String) + matchesMS s.«matches»

/-- Every table entry's stored match id equals its key (the source inserts
matches only under their own id). -/
def KeysId (ms : List (String × Match)) : Prop := ∀ km ∈ ms, km.2.id = km.1

/-- Every roster has exactly `MaxPlayers` players. -/
def RosterLen (mp : Nat) (ms : List (String × Match)) : Prop :=
  ∀ km ∈ ms, km.2.players.length = mp

/-- Roster conservation for drafting matches: Radiant, Dire and the available
pool together are a permutation of the frozen roster. -/
def DraftPart (ms : List (String × Match)) : Prop :=
  ∀ km ∈ ms, km.2.state = MatchState.drafting →
    (km.2.radiant ++ km.2.dire ++ km.2.availablePlayers).Perm km.2.players

/-- The inductive state invariant, except for the queue-length bound. -/
structure Core (mp : Nat) (s : State) : Prop where
  occ : (occMS s).Nodup
  kid : KeysId s.«matches»
  knd : (s.«matches».map Prod.fst).Nodup
  rlen : RosterLen mp s.«matches»
  draft : DraftPart s.«matches»

/-- The full inductive invariant of reachable states. -/
def Inv (mp : Nat) (s : State) : Prop := Core mp s ∧ s.queue.length < mp

/-- The match freshly created by `startMatchAcceptance`. -/
def acceptingMatch (mp : Nat) (env : Env) (s : State) : Match :=
  { id := env.newId, state := .accepting, players := s.queue.take mp,
    acceptedPlayers := [], acceptDeadline := env.now + MatchAcceptTimeoutDur,
    captains := (default, default), radiant := [], dire := [],
    availablePlayers := [], currentPicker := 0, pickCount := 0, dotaMatchID := 0 }

/-- Concrete players used to evaluate the handlers on closed inputs. -/
def wp0 : Player := ⟨"p0", "P0", "", 5⟩

def wp1 : Player := ⟨"p1", "P1", "", 5⟩

def wEnv : Env := ⟨"mX", 0, []⟩

/-- A drafting match over `[wp0, wp1]` with pick count 0. -/
def wDraftMatch : Match :=
  { id := "m1", state := .drafting, players := [wp0, wp1],
    acceptedPlayers := ["p0", "p1"], acceptDeadline := 30,
    captains := (wp0, wp1), radiant := [wp0], dire := [wp1],
    availablePlayers := [], currentPicker := 0, pickCount := 0, dotaMatchID := 0 }

def wDraftState : State :=
  { queue := [], «matches» := [("m1", wDraftMatch)], lobbySettings := ⟨"ap"⟩ }

/-- An accepting match whose deadline is 100, so the timer armed for it
carries `StartedAt = 100 - MatchAcceptTimeoutDur = 70`. -/
def wAcceptMatch : Match :=
  { id := "m1", state := .accepting, players := [wp0, wp1],
    acceptedPlayers := ["p0"], acceptDeadline := 100,
    captains := (default, default), radiant := [], dire := [],
    availablePlayers := [], currentPicker := 0, pickCount := 0, dotaMatchID := 0 }

def wAccState : State :=
  { queue := [], «matches» := [("m1", wAcceptMatch)], lobbySettings := ⟨"ap"⟩ }

/-- A state whose queue already holds one player. -/
def wQState : State :=
  { queue := [wp0], «matches» := [], lobbySettings := ⟨"ap"⟩ }

/-- A state with ten distinct queued players. -/
def wTenState : State :=
  { queue := [⟨"q0", "", "", 5⟩, ⟨"q1", "", "", 5⟩, ⟨"q2", "", "", 5⟩,
      ⟨"q3", "", "", 5⟩, ⟨"q4", "", "", 5⟩, ⟨"q5", "", "", 5⟩,
      ⟨"q6", "", "", 5⟩, ⟨"q7", "", "", 5⟩, ⟨"q8", "", "", 5⟩,
      ⟨"q9", "", "", 5⟩],
    «matches» := [], lobbySettings := ⟨"ap"⟩ }

theorem GetMatch_eq_lookup (s : State) (k : String) :
    s.GetMatch k = lookupMatch k s.«matches» := rfl

theorem insertByPrio_perm (p : Player) (l : List Player) :
    (insertByPrio p l).Perm (p :: l) := by
  induction l with
  | nil => simp [insertByPrio]
  | cons q qs ih =>
    simp only [insertByPrio]
    split
    · exact ((ih.cons q).trans (List.Perm.swap p q qs)).symm.symm
    · exact List.Perm.refl _

theorem sortByPrioDesc_perm (l : List Player) : (sortByPrioDesc l).Perm l := by
  have key : ∀ (l acc : List Player),
      (l.foldl (fun acc p => insertByPrio p acc) acc).Perm (l ++ acc) := by
    intro l
    induction l with
    | nil => intro acc; simp
    | cons p ps ih =>
      intro acc
      have h1 := ih (insertByPrio p acc)
      have h2 : (ps ++ insertByPrio p acc).Perm (ps ++ p :: acc) :=
        List.Perm.append_left ps (insertByPrio_perm p acc)
      simpa using (h1.trans h2).trans List.perm_middle
  simpa using key l []

theorem extractPlayer_perm {pid : String} {l l' : List Player} {p : Player}
    (h : extractPlayer pid l = some (p, l')) : l.Perm (p :: l') := by
  induction l generalizing l' p with
  | nil => simp [extractPlayer] at h
  | cons q qs ih =>
    simp only [extractPlayer] at h
    split at h
    · simp only [Option.some.injEq, Prod.mk.injEq] at h
      obtain ⟨rfl, rfl⟩ := h
      exact List.Perm.refl _
    · cases hrec : extractPlayer pid qs with
      | none => rw [hrec] at h; simp at h
      | some r =>
        obtain ⟨p2, l2⟩ := r
        rw [hrec] at h
        simp only [Option.map_some', Option.some.injEq, Prod.mk.injEq] at h
        obtain ⟨rfl, rfl⟩ := h
        exact ((ih hrec).cons q).trans (List.Perm.swap p2 q l2)

theorem removeFirstById_perm {pid : String} {l l' : List Player}
    (h : removeFirstById pid l = some l') : ∃ p, l.Perm (p :: l') := by
  induction l generalizing l' with
  | nil => simp [removeFirstById] at h
  | cons q qs ih =>
    simp only [removeFirstById] at h
    split at h
    · refine ⟨q, ?_⟩
      obtain rfl : qs = l' := by injection h
      exact List.Perm.refl _
    · cases hrec : removeFirstById pid qs with
      | none => rw [hrec] at h; simp at h
      | some r =>
        rw [hrec] at h
        simp only [Option.map_some', Option.some.injEq] at h
        obtain rfl := h
        obtain ⟨p, hp⟩ := ih hrec
        exact ⟨p, (hp.cons q).trans (List.Perm.swap p q r)⟩

theorem mem_setMatch {e : String × Match} {k : String} {m : Match}
    {ms : List (String × Match)} (h : e ∈ setMatch k m ms) :
    e = (k, m) ∨ e ∈ ms := by
  induction ms with
  | nil => simpa [setMatch] using h
  | cons km rest ih =>
    simp only [setMatch] at h
    split at h
    · rcases List.mem_cons.mp h with h1 | h1
      · exact Or.inl h1
      · exact Or.inr (List.mem_cons_of_mem _ h1)
    · rcases List.mem_cons.mp h with h1 | h1
      · exact Or.inr (h1 ▸ List.mem_cons_self _ _)
      · rcases ih h1 with h2 | h2
        · exact Or.inl h2
        · exact Or.inr (List.mem_cons_of_mem _ h2)

theorem lookup_setMatch (k : String) (m : Match) (ms : List (String × Match)) :
    lookupMatch k (setMatch k m ms) = some m := by
  induction ms with
  | nil => simp [lookupMatch, setMatch]
  | cons km rest ih =>
    simp only [setMatch]
    split
    · simp [lookupMatch]
    · simpa [lookupMatch, List.find?, *] using ih

theorem setMatch_self {k : String} {m : Match} {ms : List (String × Match)}
    (h : lookupMatch k ms = some m) : setMatch k m ms = ms := by
  induction ms with
  | nil => simp [lookupMatch] at h
  | cons km rest ih =>
    obtain ⟨k1, m1⟩ := km
    simp only [lookupMatch, List.find?] at h
    simp only [setMatch]
    cases hk : (k1 == k) with
    | true =>
      simp only [hk] at h
      simp only [Option.map_some', Option.some.injEq] at h
      have hkk : k1 = k := eq_of_beq hk
      simp [hk, hkk, h]
    | false =>
      simp only [hk] at h
      simp only [hk, Bool.false_eq_true, if_false]
      rw [ih h]

theorem keys_setMatch_nodup {k : String} {m : Match} {ms : List (String × Match)}
    (h : (ms.map Prod.fst).Nodup) : ((setMatch k m ms).map Prod.fst).Nodup := by
  induction ms with
  | nil => simp [setMatch]
  | cons km rest ih =>
    simp only [List.map_cons, List.nodup_cons] at h
    simp only [setMatch]
    split
    · next hk =>
      have hk' : km.1 = k := eq_of_beq hk
      simp only [List.map_cons, List.nodup_cons]
      exact ⟨hk' ▸ h.1, h.2⟩
    · next hk =>
      simp only [List.map_cons, List.nodup_cons]
      refine ⟨?_, ih h.2⟩
      intro hmem
      rcases List.mem_map.mp hmem with ⟨e, he, hfst⟩
      rcases mem_setMatch he with rfl | h2
      · exact hk (by simp only [← hfst]; exact beq_self_eq_true _)
      · exact h.1 (List.mem_map.mpr ⟨e, h2, hfst⟩)

theorem eraseMatch_sublist (k : String) (ms : List (String × Match)) :
    (eraseMatch k ms).Sublist ms := List.filter_sublist ms

theorem mem_eraseMatch {e : String × Match} {k : String} {ms : List (String × Match)}
    (h : e ∈ eraseMatch k ms) : e ∈ ms :=
  (eraseMatch_sublist k ms).mem h



theorem matchesMS_setMatch_le (k : String) (m : Match) (ms : List (String × Match)) :
    matchesMS (setMatch k m ms) ≤ rosterMS m + matchesMS ms := by
  induction ms with
  | nil => simp [setMatch, matchesMS]
  | cons km rest ih =>
    simp only [setMatch]
    split
    · simp only [matchesMS]
      exact add_le_add_left (self_le_add_left _ _) _
    · simp only [matchesMS]
      calc rosterMS km.2 + matchesMS (setMatch k m rest)
          ≤ rosterMS km.2 + (rosterMS m + matchesMS rest) := add_le_add_left ih _
        _ = rosterMS m + (rosterMS km.2 + matchesMS rest) := by
            rw [add_left_comm]

theorem matchesMS_setMatch_eq {k : String} {m m₀ : Match} {ms : List (String × Match)}
    (h : lookupMatch k ms = some m₀) (hr : rosterMS m = rosterMS m₀) :
    matchesMS (setMatch k m ms) = matchesMS ms := by
  induction ms with
  | nil => simp [lookupMatch] at h
  | cons km rest ih =>
    simp only [lookupMatch, List.find?] at h
    simp only [setMatch]
    cases hk : (km.1 == k) with
    | true =>
      simp only [hk] at h
      simp only [Option.map_some', Option.some.injEq] at h
      simp only [hk, if_true, matchesMS, h, hr]
    | false =>
      simp only [hk] at h
      simp only [hk, Bool.false_eq_true, if_false, matchesMS]
      rw [ih h]

theorem eraseMatch_of_not_key {k : String} {ms : List (String × Match)}
    (h : k ∉ ms.map Prod.fst) : eraseMatch k ms = ms := by
  rw [eraseMatch, List.filter_eq_self]
  intro e he
  simp only [decide_eq_true_eq]
  intro hk
  exact h (List.mem_map.mpr ⟨e, he, hk⟩)

theorem matchesMS_split {k : String} {m : Match} {ms : List (String × Match)}
    (hnd : (ms.map Prod.fst).Nodup) (h : lookupMatch k ms = some m) :
    matchesMS ms = rosterMS m + matchesMS (eraseMatch k ms) := by
  induction ms with
  | nil => simp [lookupMatch] at h
  | cons km rest ih =>
    simp only [List.map_cons, List.nodup_cons] at hnd
    simp only [lookupMatch, List.find?] at h
    cases hk : (km.1 == k) with
    | true =>
      simp only [hk] at h
      simp only [Option.map_some', Option.some.injEq] at h
      have hkk : km.1 = k := eq_of_beq hk
      have hrest : eraseMatch k rest = rest :=
        eraseMatch_of_not_key (hkk ▸ hnd.1)
      have hhead : eraseMatch k (km :: rest) = rest := by
        simp only [eraseMatch] at hrest ⊢
        rw [List.filter_cons, if_neg (by simp [hkk]), hrest]
      rw [hhead, matchesMS, h]
    | false =>
      simp only [hk] at h
      have hne : km.1 ≠ k := by
        intro he
        rw [he] at hk
        simp at hk
      have hhead : eraseMatch k (km :: rest) = km :: eraseMatch k rest := by
        simp only [eraseMatch]
        rw [List.filter_cons, if_pos (by simp [hne])]
      rw [hhead, matchesMS, matchesMS, ih hnd.2 h, add_left_comm]

theorem rosterMS_mem_le {k : String} {m : Match} {ms : List (String × Match)}
    (h : (k, m) ∈ ms) : rosterMS m ≤ matchesMS ms := by
  induction ms with
  | nil => simp at h
  | cons km rest ih =>
    rcases List.mem_cons.mp h with h1 | h1
    · simp only [matchesMS, ← h1]
      exact self_le_add_right _ _
    · simp only [matchesMS]
      exact (ih h1).trans (self_le_add_left _ _)

theorem rosterMS_two_mem_le {k₁ k₂ : String} {m₁ m₂ : Match}
    {ms : List (String × Match)} (hnd : (ms.map Prod.fst).Nodup)
    (h₁ : (k₁, m₁) ∈ ms) (h₂ : (k₂, m₂) ∈ ms) (hne : k₁ ≠ k₂) :
    rosterMS m₁ + rosterMS m₂ ≤ matchesMS ms := by
  induction ms with
  | nil => simp at h₁
  | cons km rest ih =>
    simp only [List.map_cons, List.nodup_cons] at hnd
    rcases List.mem_cons.mp h₁ with e₁ | e₁
    · rcases List.mem_cons.mp h₂ with e₂ | e₂
      · have : k₁ = k₂ := by
          have := e₁.trans e₂.symm
          exact congrArg Prod.fst this
        exact absurd this hne
      · subst e₁
        simp only [matchesMS]
        exact add_le_add_left (rosterMS_mem_le e₂) _
    · rcases List.mem_cons.mp h₂ with e₂ | e₂
      · subst e₂
        simp only [matchesMS]
        rw [add_comm (rosterMS m₁)]
        exact add_le_add_left (rosterMS_mem_le e₁) _
      · simp only [matchesMS]
        exact (ih hnd.2 e₁ e₂).trans (self_le_add_left _ _)

theorem matchesMS_erase_le (k : String) (ms : List (String × Match)) :
    matchesMS (eraseMatch k ms) ≤ matchesMS ms := by
  induction ms with
  | nil => simp [eraseMatch, matchesMS]
  | cons km rest ih =>
    simp only [eraseMatch] at ih ⊢
    rw [List.filter_cons]
    split
    · simp only [matchesMS]
      exact add_le_add_left ih _
    · simp only [matchesMS]
      exact ih.trans (self_le_add_left _ _)

theorem selectCaptains_cons (l : List Player) (h2 : 2 ≤ l.length) :
    ∃ rest, ((selectCaptains l).1 :: (selectCaptains l).2 :: rest).Perm l := by
  have hs : (sortByPrioDesc l).Perm l := sortByPrioDesc_perm l
  have hlen : 2 ≤ (sortByPrioDesc l).length := by rw [hs.length_eq]; exact h2
  cases hl : sortByPrioDesc l with
  | nil => rw [hl] at hlen; simp at hlen
  | cons a t =>
    cases t with
    | nil => rw [hl] at hlen; simp at hlen
    | cons b rest =>
      refine ⟨rest, ?_⟩
      have hsel : selectCaptains l =
          ((sortByPrioDesc l).getD 0 default, (sortByPrioDesc l).getD 1 default) := by
        simp only [selectCaptains]
        rw [if_neg (by omega)]
      rw [hsel, hl]
      simp only [List.getD_cons_zero, List.getD_cons_succ]
      rw [← hl]
      exact hs

theorem startDraft_partition {players shuffled : List Player}
    (hp : shuffled.Perm players)
    (hn : (players.map Player.steamID).Nodup) (h2 : 2 ≤ players.length) :
    ((selectCaptains shuffled).1 :: (selectCaptains shuffled).2 ::
      players.filter (fun p => p.steamID != (selectCaptains shuffled).1.steamID
        && p.steamID != (selectCaptains shuffled).2.steamID)).Perm players := by
  obtain ⟨rest, hperm⟩ := selectCaptains_cons shuffled
    (by rw [hp.length_eq]; exact h2)
  set c1 := (selectCaptains shuffled).1 with hc1
  set c2 := (selectCaptains shuffled).2 with hc2
  have hcp : (c1 :: c2 :: rest).Perm players := hperm.trans hp
  have hids : ((c1 :: c2 :: rest).map Player.steamID).Nodup :=
    ((hcp.map Player.steamID).nodup_iff).mpr hn
  rw [List.map_cons, List.map_cons, List.nodup_cons, List.nodup_cons] at hids
  obtain ⟨hid1, hid2, _⟩ := hids
  have hfil : (players.filter (fun p => p.steamID != c1.steamID
      && p.steamID != c2.steamID)).Perm rest := by
    have hpf := (hcp.symm.filter (fun p => p.steamID != c1.steamID
      && p.steamID != c2.steamID))
    rw [List.filter_cons, List.filter_cons] at hpf
    rw [if_neg (by simp), if_neg (by simp)] at hpf
    have hrest : List.filter (fun p => p.steamID != c1.steamID
        && p.steamID != c2.steamID) rest = rest := by
      rw [List.filter_eq_self]
      intro x hx
      have hx1 : c1.steamID ≠ x.steamID := by
        intro he
        exact hid1 (List.mem_cons.mpr (Or.inr (List.mem_map.mpr ⟨x, hx, he.symm⟩)))
      have hx2 : c2.steamID ≠ x.steamID := by
        intro he
        exact hid2 (List.mem_map.mpr ⟨x, hx, he.symm⟩)
      simp [bne_iff_ne, Ne.symm hx1, Ne.symm hx2]
    rw [hrest] at hpf
    exact hpf
  exact ((hfil.cons c2).cons c1).trans hcp

theorem lookup_mem {k : String} {ms : List (String × Match)} {m : Match}
    (h : lookupMatch k ms = some m) : (k, m) ∈ ms := by
  unfold lookupMatch at h
  cases hf : ms.find? (fun km => km.1 == k) with
  | none => rw [hf] at h; simp at h
  | some e =>
    rw [hf] at h
    simp only [Option.map_some', Option.some.injEq] at h
    have hmem := List.mem_of_find?_eq_some hf
    have hpred := List.find?_some hf
    have hek : e.1 = k := eq_of_beq (by simpa using hpred)
    obtain ⟨e1, e2⟩ := e
    simp only at h hek
    subst h
    subst hek
    exact hmem



theorem roster_nodup_of_occ {s : State} {k : String} {m : Match}
    (hocc : (occMS s).Nodup) (h : lookupMatch k s.«matches» = some m) :
    (m.players.map Player.steamID).Nodup := by
  have h1 : rosterMS m ≤ matchesMS s.«matches» := rosterMS_mem_le (lookup_mem h)
  have h2 : matchesMS s.«matches» ≤ occMS s := self_le_add_left _ _
  have h3 := Multiset.nodup_of_le (h1.trans h2) hocc
  rwa [rosterMS, Multiset.coe_nodup] at h3


theorem startMA_eq (mp : Nat) (env : Env) (s : State) :
    startMatchAcceptance mp env s =
    ({ s with
        queue := s.queue.drop mp,
        «matches» := setMatch env.newId (acceptingMatch mp env s) s.«matches» },
     [Event.queueUpdated (s.queue.drop mp),
      Event.matchAcceptStarted env.newId (s.queue.take mp)
        (env.now + MatchAcceptTimeoutDur)]) := rfl

theorem occMS_startMA_le (mp : Nat) (env : Env) (s : State) :
    occMS (startMatchAcceptance mp env s).1 ≤ occMS s := by
  have h1 := matchesMS_setMatch_le env.newId (acceptingMatch mp env s) s.«matches»
  have h2 : occMS (startMatchAcceptance mp env s).1 ≤
      ((s.queue.drop mp).map Player.steamID : Multiset String)
      + (rosterMS (acceptingMatch mp env s) + matchesMS s.«matches») := by
    rw [startMA_eq]
    exact add_le_add_left h1 _
  refine h2.trans (le_of_eq ?_)
  show ((s.queue.drop mp).map Player.steamID : Multiset String)
      + ((((s.queue.take mp).map Player.steamID : List String) : Multiset String)
        + matchesMS s.«matches»)
      = (((s.queue.map Player.steamID : List String)) : Multiset String)
        + matchesMS s.«matches»
  rw [← add_assoc, add_comm (((s.queue.drop mp).map Player.steamID : List String) : Multiset String)
      (((s.queue.take mp).map Player.steamID : List String) : Multiset String),
    Multiset.coe_add, ← List.map_append, List.take_append_drop]

theorem startMA_core {mp : Nat} {env : Env} {s : State}
    (hc : Core mp s) (hq : mp ≤ s.queue.length) :
    Core mp (startMatchAcceptance mp env s).1 := by
  rw [startMA_eq]
  refine ⟨?_, ?_, ?_, ?_, ?_⟩
  · have := occMS_startMA_le mp env s
    rw [startMA_eq] at this
    exact Multiset.nodup_of_le this hc.occ
  · intro km hmem
    rcases mem_setMatch hmem with rfl | h
    · rfl
    · exact hc.kid km h
  · exact keys_setMatch_nodup hc.knd
  · intro km hmem
    rcases mem_setMatch hmem with rfl | h
    · show (s.queue.take mp).length = mp
      rw [List.length_take]
      omega
    · exact hc.rlen km h
  · intro km hmem hst
    rcases mem_setMatch hmem with rfl | h
    · simp [acceptingMatch] at hst
    · exact hc.draft km h hst

theorem checkQueue_core {mp : Nat} (env : Env) {s : State} (hc : Core mp s) :
    Core mp (checkQueue mp env s).1 ∧
      ((mp ≤ s.queue.length ∧
          (checkQueue mp env s).1.queue.length = s.queue.length - mp) ∨
       (s.queue.length < mp ∧ (checkQueue mp env s).1 = s)) := by
  unfold checkQueue
  split
  · next h =>
    refine ⟨startMA_core hc h, Or.inl ⟨h, ?_⟩⟩
    rw [startMA_eq]
    simp [List.length_drop]
  · next h => exact ⟨hc, Or.inr ⟨by omega, rfl⟩⟩

theorem checkQueue_inv {mp : Nat} (env : Env) {s : State}
    (hc : Core mp s) (hmp : 1 ≤ mp) (hlen : s.queue.length ≤ 2 * mp - 1) :
    Inv mp (checkQueue mp env s).1 := by
  obtain ⟨hcore, hcase⟩ := checkQueue_core env hc
  refine ⟨hcore, ?_⟩
  rcases hcase with ⟨h1, h2⟩ | ⟨h1, h2⟩
  · rw [h2]; omega
  · rw [h2]; exact h1

theorem mem_matchesMS {x : String} {ms : List (String × Match)} :
    x ∈ matchesMS ms ↔ ∃ km, km ∈ ms ∧ x ∈ km.2.players.map Player.steamID := by
  induction ms with
  | nil => simp [matchesMS]
  | cons km rest ih =>
    simp only [matchesMS, Multiset.mem_add, ih, rosterMS, Multiset.mem_coe]
    constructor
    · rintro (h | ⟨e, he, hx⟩)
      · exact ⟨km, List.mem_cons_self _ _, h⟩
      · exact ⟨e, List.mem_cons_of_mem _ he, hx⟩
    · rintro ⟨e, he, hx⟩
      rcases List.mem_cons.mp he with rfl | he'
      · exact Or.inl hx
      · exact Or.inr ⟨e, he', hx⟩

theorem isPlayerInQueue_eq (s : State) (pid : String) :
    s.IsPlayerInQueue pid = true ↔ pid ∈ s.queue.map Player.steamID := by
  simp only [State.IsPlayerInQueue, List.any_eq_true, beq_iff_eq, List.mem_map]

theorem isPlayerInMatch_eq (s : State) (pid : String) :
    s.IsPlayerInMatch pid = true ↔ pid ∈ matchesMS s.«matches» := by
  rw [mem_matchesMS]
  simp only [State.IsPlayerInMatch, Match.hasPlayer, List.any_eq_true, beq_iff_eq,
    List.mem_map]

theorem occ_queue_append (s : State) (p : Player) :
    occMS { s with queue := s.queue ++ [p] } = p.steamID ::ₘ occMS s := by
  show ((s.queue ++ [p]).map Player.steamID : Multiset String)
      + matchesMS s.«matches» = p.steamID ::ₘ occMS s
  rw [List.map_append]
  rw [show (((s.queue.map Player.steamID ++ [p].map Player.steamID : List String))
      : Multiset String)
    = ((s.queue.map Player.steamID : List String) : Multiset String)
      + (([p.steamID] : List String) : Multiset String) from (Multiset.coe_add _ _).symm]
  rw [occMS]
  rw [Multiset.coe_singleton]
  rw [add_comm ((s.queue.map Player.steamID : List String) : Multiset String)
    ({p.steamID} : Multiset String), add_assoc, Multiset.singleton_add]

theorem inv_joinQueue {mp : Nat} {env : Env} {s : State} {p : Player}
    (h2 : 2 ≤ mp) (hi : Inv mp s) :
    Inv mp (handleJoinQueue mp env s p).state := by
  obtain ⟨hc, hq⟩ := hi
  unfold handleJoinQueue
  cases hin : s.IsPlayerInQueue p.steamID with
  | true => exact ⟨hc, hq⟩
  | false =>
    cases him : s.IsPlayerInMatch p.steamID with
    | true => simp only [hin, him]; exact ⟨hc, hq⟩
    | false =>
      simp only [hin, him, Bool.false_eq_true, if_false]
      have hfresh : p.steamID ∉ occMS s := by
        rw [occMS, Multiset.mem_add]
        rintro (hmem | hmem)
        · rw [Multiset.mem_coe] at hmem
          rw [← isPlayerInQueue_eq] at hmem
          rw [hin] at hmem
          exact absurd hmem (by simp)
        · rw [← isPlayerInMatch_eq] at hmem
          rw [him] at hmem
          exact absurd hmem (by simp)
      have hc1 : Core mp { s with queue := s.queue ++ [p] } := by
        refine ⟨?_, hc.kid, hc.knd, hc.rlen, hc.draft⟩
        rw [occ_queue_append]
        exact (Multiset.nodup_cons).mpr ⟨hfresh, hc.occ⟩
      have := checkQueue_inv env hc1 (by omega)
        (by simp only [List.length_append, List.length_singleton]; omega)
      exact this

theorem occ_queue_sub {s : State} {q' : List Player}
    (h : ((q'.map Player.steamID : List String) : Multiset String)
      ≤ ((s.queue.map Player.steamID : List String) : Multiset String)) :
    occMS { s with queue := q' } ≤ occMS s := by
  show ((q'.map Player.steamID : List String) : Multiset String)
      + matchesMS s.«matches» ≤ occMS s
  exact add_le_add_right h _

theorem inv_leaveQueue {mp : Nat} {s : State} {pid : String}
    (hi : Inv mp s) : Inv mp (handleLeaveQueue s pid).state := by
  obtain ⟨hc, hq⟩ := hi
  unfold handleLeaveQueue
  split
  · exact ⟨hc, hq⟩
  · cases hrem : removeFirstById pid s.queue with
    | none => exact ⟨hc, hq⟩
    | some q' =>
      obtain ⟨p, hperm⟩ := removeFirstById_perm hrem
      have hlen : q'.length < s.queue.length := by
        have := hperm.length_eq
        simp only [List.length_cons] at this
        omega
      have hsub : ((q'.map Player.steamID : List String) : Multiset String)
          ≤ ((s.queue.map Player.steamID : List String) : Multiset String) := by
        have hc2 : ((s.queue.map Player.steamID : List String) : Multiset String)
            = (((p :: q').map Player.steamID : List String) : Multiset String) :=
          Multiset.coe_eq_coe.mpr (hperm.map Player.steamID)
        rw [hc2, List.map_cons]
        exact Multiset.le_cons_self _ _
      show Inv mp { s with queue := q' }
      refine ⟨⟨?_, hc.kid, hc.knd, hc.rlen, hc.draft⟩, ?_⟩
      · exact Multiset.nodup_of_le (occ_queue_sub hsub) hc.occ
      · show q'.length < mp
        omega

theorem inv_adminKick {mp : Nat} {s : State} {pid : String}
    (hi : Inv mp s) : Inv mp (handleAdminKickFromQueue s pid).state := by
  obtain ⟨hc, hq⟩ := hi
  unfold handleAdminKickFromQueue
  split
  · exact ⟨hc, hq⟩
  · have hsub : ((((s.queue.filter (fun p => p.steamID != pid)).map Player.steamID
        : List String)) : Multiset String)
        ≤ ((s.queue.map Player.steamID : List String) : Multiset String) := by
      apply Multiset.coe_le.mpr
      exact ((List.filter_sublist s.queue).map Player.steamID).subperm
    show Inv mp { s with queue := s.queue.filter (fun p => p.steamID != pid) }
    refine ⟨⟨?_, hc.kid, hc.knd, hc.rlen, hc.draft⟩, ?_⟩
    · exact Multiset.nodup_of_le (occ_queue_sub hsub) hc.occ
    · show (s.queue.filter (fun p => p.steamID != pid)).length < mp
      have := List.length_filter_le (fun p => p.steamID != pid) s.queue
      omega

theorem inv_setLobby {mp : Nat} {s : State} {settings : LobbySettings}
    (hi : Inv mp s) : Inv mp (handleAdminSetLobbySettings s settings).state := by
  obtain ⟨hc, hq⟩ := hi
  unfold handleAdminSetLobbySettings
  split
  · exact ⟨hc, hq⟩
  · exact ⟨⟨hc.occ, hc.kid, hc.knd, hc.rlen, hc.draft⟩, hq⟩

theorem core_replace_queue_erase {mp : Nat} {s : State} {k : String} {m : Match}
    (q' : List Player) (hc : Core mp s) (hl : lookupMatch k s.«matches» = some m)
    (hq' : ((q'.map Player.steamID : List String) : Multiset String)
      ≤ ((s.queue.map Player.steamID : List String) : Multiset String) + rosterMS m) :
    Core mp { s with queue := q', «matches» := eraseMatch k s.«matches» } := by
  have hocc : occMS { s with queue := q', «matches» := eraseMatch k s.«matches» }
      ≤ occMS s := by
    show ((q'.map Player.steamID : List String) : Multiset String)
        + matchesMS (eraseMatch k s.«matches») ≤ occMS s
    rw [occMS, matchesMS_split hc.knd hl, Multiset.le_iff_count]
    intro x
    have hcnt := Multiset.le_iff_count.mp hq' x
    simp only [Multiset.count_add] at hcnt ⊢
    omega
  refine ⟨Multiset.nodup_of_le hocc hc.occ, ?_, ?_, ?_, ?_⟩
  · intro km hmem; exact hc.kid km (mem_eraseMatch hmem)
  · exact List.Nodup.sublist ((eraseMatch_sublist k s.«matches»).map Prod.fst) hc.knd
  · intro km hmem; exact hc.rlen km (mem_eraseMatch hmem)
  · intro km hmem; exact hc.draft km (mem_eraseMatch hmem)

theorem filter_ids_le (m : Match) (pred : Player → Bool) :
    (((m.players.filter pred).map Player.steamID : List String) : Multiset String)
      ≤ rosterMS m :=
  Multiset.coe_le.mpr (((List.filter_sublist m.players).map Player.steamID).subperm)

theorem prepend_ids_le {ret : List Player} {m : Match} (s : State)
    (hret : ((ret.map Player.steamID : List String) : Multiset String) ≤ rosterMS m) :
    (((ret ++ s.queue).map Player.steamID : List String) : Multiset String)
      ≤ ((s.queue.map Player.steamID : List String) : Multiset String) + rosterMS m := by
  rw [List.map_append, Multiset.le_iff_count]
  intro x
  have hcnt := Multiset.le_iff_count.mp hret x
  have hsplit : Multiset.count x
      (((ret.map Player.steamID ++ s.queue.map Player.steamID : List String))
        : Multiset String)
      = Multiset.count x ((ret.map Player.steamID : List String) : Multiset String)
        + Multiset.count x ((s.queue.map Player.steamID : List String)
          : Multiset String) := by
    rw [← Multiset.count_add, Multiset.coe_add]
  simp only [Multiset.count_add]
  omega

theorem inv_matchAcceptTimeout {mp : Nat} {env : Env} {s : State}
    {mid : String} {t : Nat} (h2 : 2 ≤ mp) (hi : Inv mp s) :
    Inv mp (handleMatchAcceptTimeout mp env s mid t).state := by
  obtain ⟨hc, hq⟩ := hi
  unfold handleMatchAcceptTimeout
  split
  next hget => exact ⟨hc, hq⟩
  next m hget =>
    split
    next hstate => exact ⟨hc, hq⟩
    next hstate =>
      have hl : lookupMatch mid s.«matches» = some m := by
        rw [← GetMatch_eq_lookup]; exact hget
      have hret := filter_ids_le m (fun p => decide (p.steamID ∈ m.acceptedPlayers))
      have hc1 := core_replace_queue_erase
          (m.players.filter (fun p => decide (p.steamID ∈ m.acceptedPlayers)) ++ s.queue)
        hc hl (prepend_ids_le s hret)
      have hlen : (m.players.filter
          (fun p => decide (p.steamID ∈ m.acceptedPlayers))).length ≤ mp := by
        have ha := List.length_filter_le
          (fun p => decide (p.steamID ∈ m.acceptedPlayers)) m.players
        have hb := hc.rlen _ (lookup_mem hl)
        simp only at hb
        omega
      exact checkQueue_inv env hc1 (by omega)
        (by show (m.players.filter (fun p => decide (p.steamID ∈ m.acceptedPlayers))
              ++ s.queue).length ≤ 2 * mp - 1
            rw [List.length_append]; omega)

theorem inv_draftPickTimeout {mp : Nat} {env : Env} {s : State}
    {mid : String} {pn : Nat} (h2 : 2 ≤ mp) (hi : Inv mp s) :
    Inv mp (handleDraftPickTimeout mp env s mid pn).state := by
  obtain ⟨hc, hq⟩ := hi
  unfold handleDraftPickTimeout
  split
  next hget => exact ⟨hc, hq⟩
  next m hget =>
    split
    next hstate => exact ⟨hc, hq⟩
    next hstate =>
      split
      next hpc => exact ⟨hc, hq⟩
      next hpc =>
        have hl : lookupMatch mid s.«matches» = some m := by
          rw [← GetMatch_eq_lookup]; exact hget
        have hret := filter_ids_le m
          (fun p => p.steamID != (capAt m.currentPicker m.captains).steamID)
        have hc1 := core_replace_queue_erase
            (m.players.filter
              (fun p => p.steamID != (capAt m.currentPicker m.captains).steamID)
            ++ s.queue)
          hc hl (prepend_ids_le s hret)
        have hlen : (m.players.filter
            (fun p => p.steamID != (capAt m.currentPicker m.captains).steamID)).length
            ≤ mp := by
          have ha := List.length_filter_le
            (fun p => p.steamID != (capAt m.currentPicker m.captains).steamID) m.players
          have hb := hc.rlen _ (lookup_mem hl)
          simp only at hb
          omega
        exact checkQueue_inv env hc1 (by omega)
          (by show (m.players.filter
                (fun p => p.steamID != (capAt m.currentPicker m.captains).steamID)
                ++ s.queue).length ≤ 2 * mp - 1
              rw [List.length_append]; omega)

theorem inv_botLobbyTimeout {mp : Nat} {env : Env} {s : State}
    {mid : String} {joined : List String} (h2 : 2 ≤ mp) (hi : Inv mp s) :
    Inv mp (handleBotLobbyTimeout mp env s mid joined).state := by
  obtain ⟨hc, hq⟩ := hi
  unfold handleBotLobbyTimeout
  split
  next hget => exact ⟨hc, hq⟩
  next m hget =>
    split
    next hstate => exact ⟨hc, hq⟩
    next hstate =>
      have hl : lookupMatch mid s.«matches» = some m := by
        rw [← GetMatch_eq_lookup]; exact hget
      have hret := filter_ids_le m (fun p => decide (p.steamID ∈ joined))
      have hc1 := core_replace_queue_erase
          (m.players.filter (fun p => decide (p.steamID ∈ joined)) ++ s.queue)
        hc hl (prepend_ids_le s hret)
      have hlen : (m.players.filter
          (fun p => decide (p.steamID ∈ joined))).length ≤ mp := by
        have ha := List.length_filter_le (fun p => decide (p.steamID ∈ joined)) m.players
        have hb := hc.rlen _ (lookup_mem hl)
        simp only at hb
        omega
      exact checkQueue_inv env hc1 (by omega)
        (by show (m.players.filter (fun p => decide (p.steamID ∈ joined))
              ++ s.queue).length ≤ 2 * mp - 1
            rw [List.length_append]; omega)

theorem inv_botLobbyReady {mp : Nat} {s : State} {mid : String} (hi : Inv mp s) :
    Inv mp (handleBotLobbyReady s mid).state := by
  unfold handleBotLobbyReady
  split
  · exact hi
  · exact hi

theorem inv_botGameEnded {mp : Nat} {env : Env} {s : State} {mid : String}
    {dotaID : Nat} {w : Option String} (h2 : 2 ≤ mp) (hi : Inv mp s) :
    Inv mp (handleBotGameEnded mp env s mid dotaID w).state := by
  obtain ⟨hc, hq⟩ := hi
  unfold handleBotGameEnded
  split
  next hget => exact ⟨hc, hq⟩
  next m hget =>
    have hl : lookupMatch mid s.«matches» = some m := by
      rw [← GetMatch_eq_lookup]; exact hget
    have hc1 := core_replace_queue_erase s.queue hc hl
      (self_le_add_right _ _)
    exact checkQueue_inv env hc1 (by omega)
      (by show s.queue.length ≤ 2 * mp - 1; omega)

theorem inv_adminSetMatchResult {mp : Nat} {env : Env} {s : State}
    {mid w : String} (h2 : 2 ≤ mp) (hi : Inv mp s) :
    Inv mp (handleAdminSetMatchResult mp env s mid w).state := by
  obtain ⟨hc, hq⟩ := hi
  unfold handleAdminSetMatchResult
  split
  next hget => exact ⟨hc, hq⟩
  next m hget =>
    split
    next hw => exact ⟨hc, hq⟩
    next hw =>
      have hl : lookupMatch mid s.«matches» = some m := by
        rw [← GetMatch_eq_lookup]; exact hget
      have hc1 := core_replace_queue_erase s.queue hc hl
        (self_le_add_right _ _)
      exact checkQueue_inv env hc1 (by omega)
        (by show s.queue.length ≤ 2 * mp - 1; omega)

theorem requeueAll_eq (l : List Player) :
    ∀ q : List Player, ∃ t, requeueAll q l = q ++ t ∧ t.Sublist l := by
  induction l with
  | nil => intro q; exact ⟨[], by simp [requeueAll], List.nil_sublist _⟩
  | cons p ps ih =>
    intro q
    unfold requeueAll
    split
    · obtain ⟨t, ht, hs⟩ := ih q
      exact ⟨t, ht, hs.cons _⟩
    · obtain ⟨t, ht, hs⟩ := ih (q ++ [p])
      refine ⟨p :: t, ?_, hs.cons₂ _⟩
      rw [ht, List.append_assoc]
      rfl

theorem inv_adminCancelMatch {mp : Nat} {env : Env} {s : State}
    {mid : String} {rq : Bool} (h2 : 2 ≤ mp) (hi : Inv mp s) :
    Inv mp (handleAdminCancelMatch mp env s mid rq).state := by
  obtain ⟨hc, hq⟩ := hi
  unfold handleAdminCancelMatch
  split
  next hget => exact ⟨hc, hq⟩
  next m hget =>
    have hl : lookupMatch mid s.«matches» = some m := by
      rw [← GetMatch_eq_lookup]; exact hget
    have hmplen : m.players.length = mp := by
      have := hc.rlen _ (lookup_mem hl)
      simpa using this
    cases rq with
    | false =>
      have hc1 := core_replace_queue_erase s.queue hc hl
        (self_le_add_right _ _)
      exact checkQueue_inv env hc1 (by omega)
        (by show s.queue.length ≤ 2 * mp - 1; omega)
    | true =>
      obtain ⟨t, ht, hs⟩ := requeueAll_eq m.players s.queue
      have hq' : (((requeueAll s.queue m.players).map Player.steamID : List String)
          : Multiset String)
          ≤ ((s.queue.map Player.steamID : List String) : Multiset String)
            + rosterMS m := by
        rw [ht, List.map_append, Multiset.le_iff_count]
        intro x
        have hts : ((t.map Player.steamID : List String) : Multiset String)
            ≤ rosterMS m := Multiset.coe_le.mpr ((hs.map Player.steamID).subperm)
        have hcnt := Multiset.le_iff_count.mp hts x
        have hsplit : Multiset.count x
            (((s.queue.map Player.steamID ++ t.map Player.steamID : List String))
              : Multiset String)
            = Multiset.count x ((s.queue.map Player.steamID : List String)
                : Multiset String)
              + Multiset.count x ((t.map Player.steamID : List String)
                : Multiset String) := by
          rw [← Multiset.count_add, Multiset.coe_add]
        simp only [Multiset.count_add]
        omega
      have hc1 := core_replace_queue_erase (requeueAll s.queue m.players)
        hc hl hq'
      exact checkQueue_inv env hc1 (by omega)
        (by show (requeueAll s.queue m.players).length ≤ 2 * mp - 1
            rw [ht]
            have := hs.length_le
            rw [List.length_append]
            omega)

theorem core_update_match {mp : Nat} {s : State} {k : String} {m m' : Match}
    (hc : Core mp s) (hl : lookupMatch k s.«matches» = some m)
    (hid : m'.id = m.id) (hroster : m'.players = m.players)
    (hdraft : m'.state = MatchState.drafting →
      (m'.radiant ++ m'.dire ++ m'.availablePlayers).Perm m'.players) :
    Core mp { s with «matches» := setMatch k m' s.«matches» } := by
  have hocc : occMS { s with «matches» := setMatch k m' s.«matches» } = occMS s := by
    show ((s.queue.map Player.steamID : List String) : Multiset String)
        + matchesMS (setMatch k m' s.«matches») = occMS s
    rw [matchesMS_setMatch_eq hl (by rw [rosterMS, rosterMS, hroster])]
    rfl
  refine ⟨hocc ▸ hc.occ, ?_, keys_setMatch_nodup hc.knd, ?_, ?_⟩
  · intro km hmem
    rcases mem_setMatch hmem with rfl | h
    · show m'.id = k
      rw [hid]
      exact hc.kid _ (lookup_mem hl)
    · exact hc.kid km h
  · intro km hmem
    rcases mem_setMatch hmem with rfl | h
    · show m'.players.length = mp
      rw [hroster]
      have := hc.rlen _ (lookup_mem hl)
      simpa using this
    · exact hc.rlen km h
  · intro km hmem hst
    rcases mem_setMatch hmem with rfl | h
    · exact hdraft hst
    · exact hc.draft km h hst

theorem inv_botGameStarted {mp : Nat} {s : State} {mid : String} {dotaID : Nat}
    (hi : Inv mp s) : Inv mp (handleBotGameStarted s mid dotaID).state := by
  obtain ⟨hc, hq⟩ := hi
  unfold handleBotGameStarted
  split
  next hget => exact ⟨hc, hq⟩
  next m hget =>
    have hl : lookupMatch mid s.«matches» = some m := by
      rw [← GetMatch_eq_lookup]; exact hget
    refine ⟨core_update_match hc hl rfl rfl ?_, hq⟩
    intro hst
    have hst' : MatchState.inProgress = MatchState.drafting := hst
    exact absurd hst' (by decide)

theorem core_completeDraft {mp : Nat} {s : State} {m : Match} (hc : Core mp s)
    (hl : lookupMatch m.id s.«matches» = some m) :
    Core mp (completeDraft s m).1 := by
  refine core_update_match hc hl rfl rfl ?_
  intro hst
  have hst' : MatchState.waitingForBot = MatchState.drafting := hst
  exact absurd hst' (by decide)

theorem inv_startDraft {mp : Nat} {env : Env} {s : State} {m : Match}
    (h2 : 2 ≤ mp) (hc : Core mp s) (hq : s.queue.length < mp)
    (hl : lookupMatch m.id s.«matches» = some m)
    (hsh : env.shuffled.Perm m.players) :
    Inv mp (startDraft env s m).1 := by
  unfold startDraft
  split
  next hstate => exact ⟨hc, hq⟩
  next hstate =>
    have hlen : m.players.length = mp := by
      have := hc.rlen _ (lookup_mem hl)
      simpa using this
    have hnd : (m.players.map Player.steamID).Nodup := roster_nodup_of_occ hc.occ hl
    have hpart := startDraft_partition hsh hnd (by omega)
    have hcore1 : Core mp { s with
        «matches» := setMatch m.id
          { m with
            state := MatchState.drafting,
            captains := selectCaptains env.shuffled,
            radiant := [(selectCaptains env.shuffled).1],
            dire := [(selectCaptains env.shuffled).2],
            availablePlayers := m.players.filter
              (fun p => p.steamID != (selectCaptains env.shuffled).1.steamID
                && p.steamID != (selectCaptains env.shuffled).2.steamID),
            currentPicker := 0, pickCount := 0 } s.«matches» } :=
      core_update_match hc hl rfl rfl (fun _ => hpart)
    dsimp only
    split
    next hempty =>
      refine ⟨core_completeDraft hcore1 ?_, hq⟩
      exact lookup_setMatch m.id _ s.«matches»
    next hempty => exact ⟨hcore1, hq⟩

theorem inv_acceptMatch {mp : Nat} {env : Env} {s : State} {pid mid : String}
    (h2 : 2 ≤ mp) (hi : Inv mp s)
    (henv : ∀ m, s.GetMatch mid = some m → env.shuffled.Perm m.players) :
    Inv mp (handleAcceptMatch mp env s pid mid).state := by
  obtain ⟨hc, hq⟩ := hi
  unfold handleAcceptMatch
  split
  next hget => exact ⟨hc, hq⟩
  next m hget =>
    split
    next hstate => exact ⟨hc, hq⟩
    next hstate =>
      split
      next hroster => exact ⟨hc, hq⟩
      next hroster =>
        have hl : lookupMatch mid s.«matches» = some m := by
          rw [← GetMatch_eq_lookup]; exact hget
        have hkid : m.id = mid := hc.kid _ (lookup_mem hl)
        have hacc : m.state = MatchState.accepting := not_not.mp hstate
        have hcore1 : Core mp { s with
            «matches» := setMatch mid
              { m with acceptedPlayers := insertAccepted pid m.acceptedPlayers }
              s.«matches» } := by
          refine core_update_match hc hl rfl rfl ?_
          intro hst
          have hst' : m.state = MatchState.drafting := hst
          rw [hacc] at hst'
          exact absurd hst' (by decide)
        dsimp only
        split
        next hfull =>
          have hl1 : lookupMatch m.id (setMatch mid
              { m with acceptedPlayers := insertAccepted pid m.acceptedPlayers }
              s.«matches»)
              = some { m with
                  acceptedPlayers := insertAccepted pid m.acceptedPlayers } := by
            rw [hkid]
            exact lookup_setMatch mid _ s.«matches»
          exact inv_startDraft h2 hcore1 hq hl1 (henv m hget)
        next hfull => exact ⟨hcore1, hq⟩

theorem inv_pickPlayer {mp : Nat} {s : State} {capId pickedId mid : String}
    (hi : Inv mp s) : Inv mp (handlePickPlayer s capId pickedId mid).state := by
  obtain ⟨hc, hq⟩ := hi
  unfold handlePickPlayer
  split
  next hget => exact ⟨hc, hq⟩
  next m hget =>
    split
    next hstate => exact ⟨hc, hq⟩
    next hstate =>
      split
      next hcap => exact ⟨hc, hq⟩
      next hcap =>
        split
        next hext => exact ⟨hc, hq⟩
        next picked avail' hext =>
          have hl : lookupMatch mid s.«matches» = some m := by
            rw [← GetMatch_eq_lookup]; exact hget
          have hkid : m.id = mid := hc.kid _ (lookup_mem hl)
          have hl' : lookupMatch m.id s.«matches» = some m := by
            rw [hkid]; exact hl
          have hdraftst : m.state = MatchState.drafting := not_not.mp hstate
          have hold : ((m.radiant ++ m.dire) ++ m.availablePlayers).Perm m.players :=
            hc.draft _ (lookup_mem hl) hdraftst
          have hold' : (m.radiant ++ (m.dire ++ m.availablePlayers)).Perm m.players := by
            rw [← List.append_assoc]; exact hold
          have havail : m.availablePlayers.Perm (picked :: avail') :=
            extractPlayer_perm hext
          dsimp only
          by_cases hpick : m.currentPicker = 0
          · simp only [if_pos hpick]
            have hperm3 : (((m.radiant ++ [picked]) ++ m.dire) ++ avail').Perm
                m.players := by
              have heq : (((m.radiant ++ [picked]) ++ m.dire) ++ avail')
                  = m.radiant ++ (picked :: (m.dire ++ avail')) := by
                simp [List.append_assoc]
              have hinner : (picked :: (m.dire ++ avail')).Perm
                  (m.dire ++ m.availablePlayers) :=
                (List.perm_middle.symm).trans (List.Perm.append_left m.dire havail.symm)
              rw [heq]
              exact (List.Perm.append_left m.radiant hinner).trans hold'
            have hcore1 : Core mp { s with
                «matches» := setMatch m.id
                  { m with
                    radiant := m.radiant ++ [picked],
                    availablePlayers := avail',
                    pickCount := m.pickCount + 1,
                    currentPicker := getPickerForPickCount (m.pickCount + 1) }
                  s.«matches» } :=
              core_update_match hc hl' rfl rfl (fun _ => hperm3)
            split
            next hempty =>
              refine ⟨core_completeDraft ?_ ?_, hq⟩
              · exact hcore1
              · exact lookup_setMatch m.id _ s.«matches»
            next hempty =>
              refine ⟨?_, hq⟩
              exact hcore1
          · simp only [if_neg hpick]
            have hperm3 : ((m.radiant ++ ((m.dire ++ [picked]) ++ avail'))).Perm
                m.players := by
              have heq : (m.radiant ++ ((m.dire ++ [picked]) ++ avail'))
                  = m.radiant ++ (m.dire ++ (picked :: avail')) := by
                simp [List.append_assoc]
              have hinner : (m.dire ++ (picked :: avail')).Perm
                  (m.dire ++ m.availablePlayers) :=
                List.Perm.append_left m.dire havail.symm
              rw [heq]
              exact (List.Perm.append_left m.radiant hinner).trans hold'
            have hcore1 : Core mp { s with
                «matches» := setMatch m.id
                  { m with
                    dire := m.dire ++ [picked],
                    availablePlayers := avail',
                    pickCount := m.pickCount + 1,
                    currentPicker := getPickerForPickCount (m.pickCount + 1) }
                  s.«matches» } := by
              refine core_update_match hc hl' rfl rfl ?_
              intro hst
              show ((m.radiant ++ (m.dire ++ [picked])) ++ avail').Perm m.players
              rw [List.append_assoc]
              exact hperm3
            split
            next hempty =>
              refine ⟨core_completeDraft ?_ ?_, hq⟩
              · exact hcore1
              · exact lookup_setMatch m.id _ s.«matches»
            next hempty =>
              refine ⟨?_, hq⟩
              exact hcore1

theorem inv_initial (mp : Nat) (hmp : 1 ≤ mp) : Inv mp initialState := by
  refine ⟨⟨?_, ?_, ?_, ?_, ?_⟩, ?_⟩
  · show (occMS initialState).Nodup
    simp [occMS, initialState, matchesMS]
  · intro km hmem; simp [initialState] at hmem
  · simp [initialState]
  · intro km hmem; simp [initialState] at hmem
  · intro km hmem; simp [initialState] at hmem
  · show (0 : Nat) < mp
    omega

theorem inv_reachable {mp : Nat} {s : State} (h2 : 2 ≤ mp)
    (hr : Reachable mp s) : Inv mp s := by
  induction hr with
  | init => exact inv_initial mp (by omega)
  | step c env hrs henv ih =>
    cases c with
    | joinQueue p => exact inv_joinQueue h2 ih
    | leaveQueue pid => exact inv_leaveQueue ih
    | acceptMatch pid mid => exact inv_acceptMatch h2 ih henv
    | pickPlayer capId pickedId mid => exact inv_pickPlayer ih
    | matchAcceptTimeout mid t => exact @inv_matchAcceptTimeout mp env _ mid t h2 ih
    | botLobbyReady mid => exact inv_botLobbyReady ih
    | botGameStarted mid dotaID => exact inv_botGameStarted ih
    | botGameEnded mid dotaID w => exact inv_botGameEnded h2 ih
    | draftPickTimeout mid pn => exact inv_draftPickTimeout h2 ih
    | botLobbyTimeout mid joined => exact inv_botLobbyTimeout h2 ih
    | adminCancelMatch mid rq => exact inv_adminCancelMatch h2 ih
    | adminSetMatchResult mid w => exact inv_adminSetMatchResult h2 ih
    | adminKickFromQueue pid => exact inv_adminKick ih
    | adminSetLobbySettings settings => exact inv_setLobby ih

/-- C7: During Drafting, the captain entitled to pick is a function of the
pick count alone (`getPickerForPickCount` takes only the count, and
`handlePickPlayer` consults nothing else), the picker sequence for picks
0..7 is exactly Radiant, Dire, Dire, Radiant, Radiant, Dire, Dire, Radiant
(0 = Team A / Radiant, 1 = Team B / Dire), and for every pick number k ≥ 8
the picker is the parity of k. -/
theorem C7_draft_order :
    ((List.range 8).map getPickerForPickCount = [0, 1, 1, 0, 0, 1, 1, 0]) ∧
    ∀ k : Nat, 8 ≤ k → getPickerForPickCount k = k % 2 := by
  constructor
  · rfl
  · intro k hk
    unfold getPickerForPickCount
    rw [if_neg (by omega), if_neg (by omega), if_neg (by omega), if_neg (by omega),
      if_neg (by omega)]

/-- Witness for C7 at the concrete pick number 9. -/
theorem C7_witness :
    (8 ≤ 9) ∧ getPickerForPickCount 9 = 9 % 2 :=
  ⟨by omega, C7_draft_order.2 9 (by omega)⟩

/-- C6: a `DraftPickTimeout` whose `PickNumber` differs from the match's
current pick count is a complete no-op for a drafting match: the returned
outcome carries the unchanged state, an empty event list and no error. -/
theorem C6_stale_draft_timeout (mp : Nat) (env : Env) (s : State)
    (mid : String) (pn : Nat) (m : Match) (hm : s.GetMatch mid = some m)
    (hst : m.state = MatchState.drafting) (hpn : m.pickCount ≠ pn) :
    handleDraftPickTimeout mp env s mid pn = ⟨s, [], none⟩ := by
  unfold handleDraftPickTimeout
  rw [hm]
  dsimp only
  rw [if_neg (by simp [hst]), if_pos hpn]

/-- Witness for C6: a stale pick-5 timeout against `wDraftState` (whose only
match is drafting at pick count 0) changes nothing. -/
theorem C6_witness :
    wDraftState.GetMatch "m1" = some wDraftMatch ∧
    wDraftMatch.state = MatchState.drafting ∧
    wDraftMatch.pickCount ≠ 5 ∧
    handleDraftPickTimeout 10 wEnv wDraftState "m1" 5 = ⟨wDraftState, [], none⟩ :=
  ⟨by decide, by decide, by decide,
    C6_stale_draft_timeout 10 wEnv wDraftState "m1" 5 wDraftMatch (by decide)
      (by decide) (by decide)⟩

/-- C3 counterexample: the claim says every timeout handler re-validates the
carried progress token and is a no-op when it mismatches.  The accept-phase
handler never reads the carried `StartedAt`: `wAccState` holds an Accepting
match with deadline 100, so the timer armed for it carries token 70, yet a
`MatchAcceptTimeout` arriving with token 999 still cancels the match (the
match is deleted, so the handling is not a no-op). -/
theorem C3_counterexample :
    (999 : Nat) ≠ wAcceptMatch.acceptDeadline - MatchAcceptTimeoutDur ∧
    wAccState.GetMatch "m1" = some wAcceptMatch ∧
    wAcceptMatch.state = MatchState.accepting ∧
    (handleMatchAcceptTimeout 10 wEnv wAccState "m1" 999).state ≠ wAccState := by
  refine ⟨by decide, by decide, by decide, ?_⟩
  decide

/-- C3 amended: the draft-pick timeout re-validates existence, the Drafting
state and the carried pick number, and is a no-op when any check fails; the
accept-phase timeout carries `StartedAt` but re-validates only existence and
the Accepting state — its behaviour is entirely independent of the carried
token (the token is never compared). -/
theorem C3_amended_timeout_validation (mp : Nat) (env : Env) (s : State)
    (mid : String) :
    (∀ t : Nat, s.GetMatch mid = none →
      handleMatchAcceptTimeout mp env s mid t = ⟨s, [], none⟩) ∧
    (∀ t : Nat, ∀ m, s.GetMatch mid = some m → m.state ≠ MatchState.accepting →
      handleMatchAcceptTimeout mp env s mid t = ⟨s, [], none⟩) ∧
    (∀ t₁ t₂ : Nat, handleMatchAcceptTimeout mp env s mid t₁
      = handleMatchAcceptTimeout mp env s mid t₂) ∧
    (∀ pn : Nat, s.GetMatch mid = none →
      handleDraftPickTimeout mp env s mid pn = ⟨s, [], none⟩) ∧
    (∀ pn : Nat, ∀ m, s.GetMatch mid = some m → m.state ≠ MatchState.drafting →
      handleDraftPickTimeout mp env s mid pn = ⟨s, [], none⟩) ∧
    (∀ pn : Nat, ∀ m, s.GetMatch mid = some m → m.state = MatchState.drafting →
      m.pickCount ≠ pn → handleDraftPickTimeout mp env s mid pn = ⟨s, [], none⟩) := by
  refine ⟨?_, ?_, ?_, ?_, ?_, ?_⟩
  · intro t hm
    unfold handleMatchAcceptTimeout
    rw [hm]
  · intro t m hm hst
    unfold handleMatchAcceptTimeout
    rw [hm]
    dsimp only
    rw [if_pos hst]
  · intro t₁ t₂
    rfl
  · intro pn hm
    unfold handleDraftPickTimeout
    rw [hm]
  · intro pn m hm hst
    unfold handleDraftPickTimeout
    rw [hm]
    dsimp only
    rw [if_pos hst]
  · intro pn m hm hst hpn
    exact C6_stale_draft_timeout mp env s mid pn m hm hst hpn

/-- Witness for the amended C3 at concrete inputs: a timeout for an unknown
match id is dropped, and the accept handler treats tokens 0 and 999 alike. -/
theorem C3_amended_witness :
    handleMatchAcceptTimeout 10 wEnv initialState "m1" 42 = ⟨initialState, [], none⟩ ∧
    handleMatchAcceptTimeout 10 wEnv wAccState "m1" 0
      = handleMatchAcceptTimeout 10 wEnv wAccState "m1" 999 ∧
    handleDraftPickTimeout 10 wEnv initialState "m1" 3 = ⟨initialState, [], none⟩ :=
  ⟨(C3_amended_timeout_validation 10 wEnv initialState "m1").1 42 (by decide),
   (C3_amended_timeout_validation 10 wEnv wAccState "m1").2.2.1 0 999,
   (C3_amended_timeout_validation 10 wEnv initialState "m1").2.2.2.1 3 (by decide)⟩

/-- C8: whenever processing any command returns a validation error on the
reply channel, no event is emitted and the state (queue, match table and
lobby settings) is returned unchanged. -/
theorem C8_validation_errors_no_mutation (mp : Nat) (env : Env) (s : State)
    (c : Command) (e : String) :
    (processCommand mp env s c).err = some e →
      (processCommand mp env s c).state = s ∧
      (processCommand mp env s c).events = [] := by
  cases c with
  | joinQueue p =>
    simp only [processCommand]
    unfold handleJoinQueue
    try dsimp only
    repeat' split
    all_goals intro h
    all_goals first | exact ⟨rfl, rfl⟩ | simp at h
  | leaveQueue pid =>
    simp only [processCommand]
    unfold handleLeaveQueue
    try dsimp only
    repeat' split
    all_goals intro h
    all_goals first | exact ⟨rfl, rfl⟩ | simp at h
  | acceptMatch pid mid =>
    simp only [processCommand]
    unfold handleAcceptMatch
    try dsimp only
    repeat' split
    all_goals intro h
    all_goals first | exact ⟨rfl, rfl⟩ | simp at h
  | pickPlayer capId pickedId mid =>
    simp only [processCommand]
    unfold handlePickPlayer
    try dsimp only
    repeat' split
    all_goals intro h
    all_goals first | exact ⟨rfl, rfl⟩ | simp at h
  | matchAcceptTimeout mid t =>
    simp only [processCommand]
    unfold handleMatchAcceptTimeout
    try dsimp only
    repeat' split
    all_goals intro h
    all_goals first | exact ⟨rfl, rfl⟩ | simp at h
  | botLobbyReady mid =>
    simp only [processCommand]
    unfold handleBotLobbyReady
    try dsimp only
    repeat' split
    all_goals intro h
    all_goals first | exact ⟨rfl, rfl⟩ | simp at h
  | botGameStarted mid dotaID =>
    simp only [processCommand]
    unfold handleBotGameStarted
    try dsimp only
    repeat' split
    all_goals intro h
    all_goals first | exact ⟨rfl, rfl⟩ | simp at h
  | botGameEnded mid dotaID w =>
    simp only [processCommand]
    unfold handleBotGameEnded
    try dsimp only
    repeat' split
    all_goals intro h
    all_goals first | exact ⟨rfl, rfl⟩ | simp at h
  | draftPickTimeout mid pn =>
    simp only [processCommand]
    unfold handleDraftPickTimeout
    try dsimp only
    repeat' split
    all_goals intro h
    all_goals first | exact ⟨rfl, rfl⟩ | simp at h
  | botLobbyTimeout mid joined =>
    simp only [processCommand]
    unfold handleBotLobbyTimeout
    try dsimp only
    repeat' split
    all_goals intro h
    all_goals first | exact ⟨rfl, rfl⟩ | simp at h
  | adminCancelMatch mid rq =>
    simp only [processCommand]
    unfold handleAdminCancelMatch
    try dsimp only
    repeat' split
    all_goals intro h
    all_goals first | exact ⟨rfl, rfl⟩ | simp at h
  | adminSetMatchResult mid w =>
    simp only [processCommand]
    unfold handleAdminSetMatchResult
    try dsimp only
    repeat' split
    all_goals intro h
    all_goals first | exact ⟨rfl, rfl⟩ | simp at h
  | adminKickFromQueue pid =>
    simp only [processCommand]
    unfold handleAdminKickFromQueue
    try dsimp only
    repeat' split
    all_goals intro h
    all_goals first | exact ⟨rfl, rfl⟩ | simp at h
  | adminSetLobbySettings settings =>
    simp only [processCommand]
    unfold handleAdminSetLobbySettings
    try dsimp only
    repeat' split
    all_goals intro h
    all_goals first | exact ⟨rfl, rfl⟩ | simp at h

/-- Witness for C8: joining the queue twice yields an "already in queue"
error and leaves the one-player state untouched with no events. -/
theorem C8_witness :
    (processCommand 10 wEnv wQState (Command.joinQueue wp0)).err
      = some "already in queue" ∧
    (processCommand 10 wEnv wQState (Command.joinQueue wp0)).state = wQState ∧
    (processCommand 10 wEnv wQState (Command.joinQueue wp0)).events = [] :=
  ⟨by decide,
   C8_validation_errors_no_mutation 10 wEnv wQState (Command.joinQueue wp0)
     "already in queue" (by decide)⟩

/-- C9: for any match in the table, regardless of its phase,
`AdminSetMatchResult` with winner radiant or dire emits `MatchCompleted`
carrying that winner, deletes the match and re-runs the queue check; with an
absent match it fails with "match not found", and with any other winner
string it fails with the winner-validation error; both failures leave the
outcome state identical and emit nothing. -/
theorem C9_admin_set_match_result (mp : Nat) (env : Env) (s : State)
    (mid w : String) :
    (∀ m, s.GetMatch mid = some m → (w = "radiant" ∨ w = "dire") →
      handleAdminSetMatchResult mp env s mid w =
        ⟨(checkQueue mp env { s with «matches» := eraseMatch mid s.«matches» }).1,
         Event.matchCompleted mid m.dotaMatchID m.players m.radiant m.dire (some w)
           :: (checkQueue mp env { s with «matches» := eraseMatch mid s.«matches» }).2,
         none⟩) ∧
    (s.GetMatch mid = none →
      handleAdminSetMatchResult mp env s mid w = ⟨s, [], some "match not found"⟩) ∧
    (∀ m, s.GetMatch mid = some m → w ≠ "radiant" → w ≠ "dire" →
      handleAdminSetMatchResult mp env s mid w =
        ⟨s, [], some "winner must be radiant or dire"⟩) := by
  refine ⟨?_, ?_, ?_⟩
  · intro m hm hw
    unfold handleAdminSetMatchResult
    rw [hm]
    dsimp only
    rw [if_neg (by tauto)]
  · intro hm
    unfold handleAdminSetMatchResult
    rw [hm]
  · intro m hm hw1 hw2
    unfold handleAdminSetMatchResult
    rw [hm]
    dsimp only
    rw [if_pos ⟨hw1, hw2⟩]

/-- Witness for C9: setting a radiant win on the accepting match of
`wAccState` (never started, `DotaMatchID` 0) completes and deletes it, and
the two failure modes behave as stated. -/
theorem C9_witness :
    (handleAdminSetMatchResult 10 wEnv wAccState "m1" "radiant" =
      ⟨(checkQueue 10 wEnv { wAccState with
          «matches» := eraseMatch "m1" wAccState.«matches» }).1,
       Event.matchCompleted "m1" wAcceptMatch.dotaMatchID wAcceptMatch.players
         wAcceptMatch.radiant wAcceptMatch.dire (some "radiant")
         :: (checkQueue 10 wEnv { wAccState with
           «matches» := eraseMatch "m1" wAccState.«matches» }).2,
       none⟩) ∧
    (handleAdminSetMatchResult 10 wEnv initialState "m1" "radiant"
      = ⟨initialState, [], some "match not found"⟩) ∧
    (handleAdminSetMatchResult 10 wEnv wAccState "m1" "midway"
      = ⟨wAccState, [], some "winner must be radiant or dire"⟩) :=
  ⟨(C9_admin_set_match_result 10 wEnv wAccState "m1" "radiant").1 wAcceptMatch
     (by decide) (Or.inl rfl),
   (C9_admin_set_match_result 10 wEnv initialState "m1" "radiant").2.1 (by decide),
   (C9_admin_set_match_result 10 wEnv wAccState "m1" "midway").2.2 wAcceptMatch
     (by decide) (by decide) (by decide)⟩

/-- C10: a second `AcceptMatch` from a player who already accepted an
Accepting match succeeds, changes nothing (the accepted set, the match, the
table and the queue are exactly as before), and — as long as fewer than
`MaxPlayers` distinct roster players have accepted — cannot trigger the
transition to Drafting; only the informational `MatchAcceptUpdated` event is
re-emitted. -/
theorem C10_accept_idempotent (mp : Nat) (env : Env) (s : State)
    (pid mid : String) (m : Match)
    (hm : s.GetMatch mid = some m) (hacc : m.state = MatchState.accepting)
    (hp : m.hasPlayer pid = true) (already : pid ∈ m.acceptedPlayers)
    (hlt : m.acceptedPlayers.length < mp) :
    handleAcceptMatch mp env s pid mid
      = ⟨s, [Event.matchAcceptUpdated m.id m.acceptedPlayers], none⟩ := by
  unfold handleAcceptMatch
  rw [hm]
  dsimp only
  rw [if_neg (by simp [hacc])]
  rw [if_neg (by simp [hp])]
  have hins : insertAccepted pid m.acceptedPlayers = m.acceptedPlayers := by
    unfold insertAccepted
    rw [if_pos already]
  rw [hins]
  have hmeta : ({ m with acceptedPlayers := m.acceptedPlayers } : Match) = m := rfl
  rw [hmeta]
  rw [setMatch_self (by rw [← GetMatch_eq_lookup]; exact hm)]
  have hseta : ({ s with «matches» := s.«matches» } : State) = s := rfl
  rw [hseta]
  rw [if_neg (by omega)]

/-- Witness for C10: `wAccState`'s match already records p0's accept; a
repeated accept by p0 returns success and the state is bit-identical. -/
theorem C10_witness :
    wAccState.GetMatch "m1" = some wAcceptMatch ∧
    ("p0" ∈ wAcceptMatch.acceptedPlayers) ∧
    wAcceptMatch.acceptedPlayers.length < 10 ∧
    handleAcceptMatch 10 wEnv wAccState "p0" "m1"
      = ⟨wAccState, [Event.matchAcceptUpdated wAcceptMatch.id
          wAcceptMatch.acceptedPlayers], none⟩ :=
  ⟨by decide, by decide, by decide,
   C10_accept_idempotent 10 wEnv wAccState "p0" "m1" wAcceptMatch (by decide)
     (by decide) (by decide) (by decide) (by decide)⟩

/-- C5: every phase failure that returns players to the queue prepends them:
after an accept timeout the accepted roster players, after a draft-pick
timeout every roster player except the failing captain, and after an
external-lobby timeout the players who joined correctly all stand ahead of
the pre-existing queue, which the ensuing queue-check then pops from the
front (taking the returned players first) if it reached `MaxPlayers`. -/
theorem C5_requeue_prepend (mp : Nat) (env : Env) (s : State) (mid : String) :
    (∀ (t : Nat) m, s.GetMatch mid = some m → m.state = MatchState.accepting →
      (handleMatchAcceptTimeout mp env s mid t).state.queue =
        if mp ≤ (m.players.filter (fun p => decide (p.steamID ∈ m.acceptedPlayers))
            ++ s.queue).length
        then (m.players.filter (fun p => decide (p.steamID ∈ m.acceptedPlayers))
            ++ s.queue).drop mp
        else m.players.filter (fun p => decide (p.steamID ∈ m.acceptedPlayers))
            ++ s.queue) ∧
    (∀ (pn : Nat) m, s.GetMatch mid = some m → m.state = MatchState.drafting →
      m.pickCount = pn →
      (handleDraftPickTimeout mp env s mid pn).state.queue =
        if mp ≤ (m.players.filter
            (fun p => p.steamID != (capAt m.currentPicker m.captains).steamID)
            ++ s.queue).length
        then (m.players.filter
            (fun p => p.steamID != (capAt m.currentPicker m.captains).steamID)
            ++ s.queue).drop mp
        else m.players.filter
            (fun p => p.steamID != (capAt m.currentPicker m.captains).steamID)
            ++ s.queue) ∧
    (∀ (joined : List String) m, s.GetMatch mid = some m →
      m.state = MatchState.waitingForBot →
      (handleBotLobbyTimeout mp env s mid joined).state.queue =
        if mp ≤ (m.players.filter (fun p => decide (p.steamID ∈ joined))
            ++ s.queue).length
        then (m.players.filter (fun p => decide (p.steamID ∈ joined))
            ++ s.queue).drop mp
        else m.players.filter (fun p => decide (p.steamID ∈ joined))
            ++ s.queue) := by
  refine ⟨?_, ?_, ?_⟩
  · intro t m hm hst
    unfold handleMatchAcceptTimeout
    rw [hm]
    dsimp only
    rw [if_neg (by simp [hst])]
    show (checkQueue mp env _).1.queue = _
    unfold checkQueue
    split
    next h => rw [startMA_eq]
    next h => rfl
  · intro pn m hm hst hpc
    unfold handleDraftPickTimeout
    rw [hm]
    dsimp only
    rw [if_neg (by simp [hst]), if_neg (by simp [hpc])]
    show (checkQueue mp env _).1.queue = _
    unfold checkQueue
    split
    next h => rw [startMA_eq]
    next h => rfl
  · intro joined m hm hst
    unfold handleBotLobbyTimeout
    rw [hm]
    dsimp only
    rw [if_neg (by simp [hst])]
    show (checkQueue mp env _).1.queue = _
    unfold checkQueue
    split
    next h => rw [startMA_eq]
    next h => rfl

/-- Witness for C5 on the accept-timeout arm: `wAccState`'s match times out
with only p0 accepted, so p0 is prepended to the (empty) queue. -/
theorem C5_witness :
    (handleMatchAcceptTimeout 10 wEnv wAccState "m1" 70).state.queue =
      if 10 ≤ (wAcceptMatch.players.filter
          (fun p => decide (p.steamID ∈ wAcceptMatch.acceptedPlayers))
          ++ wAccState.queue).length
      then (wAcceptMatch.players.filter
          (fun p => decide (p.steamID ∈ wAcceptMatch.acceptedPlayers))
          ++ wAccState.queue).drop 10
      else wAcceptMatch.players.filter
          (fun p => decide (p.steamID ∈ wAcceptMatch.acceptedPlayers))
          ++ wAccState.queue :=
  (C5_requeue_prepend 10 wEnv wAccState "m1").1 70 wAcceptMatch (by decide)
    (by decide)

theorem hasPlayer_eq (m : Match) (pid : String) :
    m.hasPlayer pid = true ↔ pid ∈ m.players.map Player.steamID := by
  simp only [Match.hasPlayer, List.any_eq_true, beq_iff_eq, List.mem_map]

/-- C1: in every state reachable from the empty initial state by processed
commands, no player id is simultaneously in the queue and on some match's
roster, and no player id is on the rosters of two different matches (two
distinct keys of the match table). -/
theorem C1_no_double_occupancy (mp : Nat) (s : State) (h2 : 2 ≤ mp)
    (hr : Reachable mp s) :
    (∀ p ∈ s.queue, ∀ km ∈ s.«matches», ¬ km.2.hasPlayer p.steamID = true) ∧
    (∀ km₁ ∈ s.«matches», ∀ km₂ ∈ s.«matches», km₁.1 ≠ km₂.1 →
      ∀ pid, km₁.2.hasPlayer pid = true → ¬ km₂.2.hasPlayer pid = true) := by
  obtain ⟨hc, _⟩ := inv_reachable h2 hr
  have hocc := hc.occ
  constructor
  · intro p hp km hkm hcontra
    have h1 : p.steamID ∈ s.queue.map Player.steamID := List.mem_map.mpr ⟨p, hp, rfl⟩
    have h3 : p.steamID ∈ rosterMS km.2 := by
      rw [rosterMS, Multiset.mem_coe]
      exact (hasPlayer_eq _ _).mp hcontra
    have hmem : (km.1, km.2) ∈ s.«matches» := by rw [Prod.mk.eta]; exact hkm
    have h4 : rosterMS km.2 ≤ matchesMS s.«matches» := rosterMS_mem_le hmem
    have hcnt := Multiset.nodup_iff_count_le_one.mp hocc p.steamID
    rw [occMS, Multiset.count_add] at hcnt
    have cq : 0 < Multiset.count p.steamID
        ((s.queue.map Player.steamID : List String) : Multiset String) :=
      Multiset.count_pos.mpr (Multiset.mem_coe.mpr h1)
    have cm : 0 < Multiset.count p.steamID (matchesMS s.«matches») :=
      Multiset.count_pos.mpr (Multiset.mem_of_le h4 h3)
    omega
  · intro km₁ h1 km₂ h2m hne pid hcontra1 hcontra2
    have hmem1 : (km₁.1, km₁.2) ∈ s.«matches» := by rw [Prod.mk.eta]; exact h1
    have hmem2 : (km₂.1, km₂.2) ∈ s.«matches» := by rw [Prod.mk.eta]; exact h2m
    have hboth : rosterMS km₁.2 + rosterMS km₂.2 ≤ matchesMS s.«matches» :=
      rosterMS_two_mem_le hc.knd hmem1 hmem2 hne
    have hin1 : pid ∈ rosterMS km₁.2 := by
      rw [rosterMS, Multiset.mem_coe]
      exact (hasPlayer_eq _ _).mp hcontra1
    have hin2 : pid ∈ rosterMS km₂.2 := by
      rw [rosterMS, Multiset.mem_coe]
      exact (hasPlayer_eq _ _).mp hcontra2
    have hcnt := Multiset.nodup_iff_count_le_one.mp hocc pid
    rw [occMS, Multiset.count_add] at hcnt
    have hcm := Multiset.count_le_of_le pid hboth
    rw [Multiset.count_add] at hcm
    have c1 : 0 < Multiset.count pid (rosterMS km₁.2) := Multiset.count_pos.mpr hin1
    have c2 : 0 < Multiset.count pid (rosterMS km₂.2) := Multiset.count_pos.mpr hin2
    omega

/-- Witness for C1 at `MaxPlayers` = 10 on the reachable state produced by
one processed `JoinQueue` command. -/
theorem C1_witness :
    (2 ≤ 10) ∧
    ((∀ p ∈ (processCommand 10 wEnv initialState (Command.joinQueue wp0)).state.queue,
        ∀ km ∈ (processCommand 10 wEnv initialState
          (Command.joinQueue wp0)).state.«matches»,
        ¬ km.2.hasPlayer p.steamID = true) ∧
     (∀ km₁ ∈ (processCommand 10 wEnv initialState
          (Command.joinQueue wp0)).state.«matches»,
        ∀ km₂ ∈ (processCommand 10 wEnv initialState
          (Command.joinQueue wp0)).state.«matches»,
        km₁.1 ≠ km₂.1 →
        ∀ pid, km₁.2.hasPlayer pid = true → ¬ km₂.2.hasPlayer pid = true)) :=
  ⟨by omega,
   C1_no_double_occupancy 10 _ (by omega)
     (Reachable.step (Command.joinQueue wp0) wEnv Reachable.init trivial)⟩

/-- C2: for every match of a reachable state that is in the Drafting phase,
Radiant, Dire and the undrafted pool partition the frozen roster (their
concatenation is a permutation of it), the roster has exactly `MaxPlayers`
players with pairwise distinct ids, and so the three part sizes always sum
to `MaxPlayers`. -/
theorem C2_roster_conservation (mp : Nat) (s : State) (h2 : 2 ≤ mp)
    (hr : Reachable mp s) :
    ∀ km ∈ s.«matches», km.2.state = MatchState.drafting →
      (km.2.radiant ++ km.2.dire ++ km.2.availablePlayers).Perm km.2.players ∧
      km.2.players.length = mp ∧
      (km.2.players.map Player.steamID).Nodup ∧
      km.2.radiant.length + km.2.dire.length + km.2.availablePlayers.length = mp := by
  intro km hkm hst
  obtain ⟨hc, _⟩ := inv_reachable h2 hr
  have hperm := hc.draft km hkm hst
  have hlen := hc.rlen km hkm
  have hmem : (km.1, km.2) ∈ s.«matches» := by rw [Prod.mk.eta]; exact hkm
  have hnd : (km.2.players.map Player.steamID).Nodup := by
    have hle : rosterMS km.2 ≤ occMS s :=
      (rosterMS_mem_le hmem).trans (self_le_add_left _ _)
    have := Multiset.nodup_of_le hle hc.occ
    rwa [rosterMS, Multiset.coe_nodup] at this
  refine ⟨hperm, hlen, hnd, ?_⟩
  have hl := hperm.length_eq
  rw [List.length_append, List.length_append] at hl
  omega

/-- Witness for C2 at `MaxPlayers` = 2: two joins and two accepts drive one
match through Drafting (and immediately beyond to WaitingForBot, where the
drafting condition holds vacuously); the theorem applies to the resulting
reachable state. -/
theorem C2_witness :
    (2 ≤ 2) ∧
    ∀ km ∈ (processCommand 2 ⟨"", 0, [wp1, wp0]⟩
        (processCommand 2 ⟨"", 0, [wp1, wp0]⟩
          (processCommand 2 ⟨"m1", 0, []⟩
            (processCommand 2 ⟨"m1", 0, []⟩ initialState
              (Command.joinQueue wp0)).state
            (Command.joinQueue wp1)).state
          (Command.acceptMatch "p0" "m1")).state
        (Command.acceptMatch "p1" "m1")).state.«matches»,
      km.2.state = MatchState.drafting →
      (km.2.radiant ++ km.2.dire ++ km.2.availablePlayers).Perm km.2.players ∧
      km.2.players.length = 2 ∧
      (km.2.players.map Player.steamID).Nodup ∧
      km.2.radiant.length + km.2.dire.length + km.2.availablePlayers.length = 2 :=
  ⟨by omega,
   C2_roster_conservation 2 _ (by omega)
     (Reachable.step (Command.acceptMatch "p1" "m1") ⟨"", 0, [wp1, wp0]⟩
       (Reachable.step (Command.acceptMatch "p0" "m1") ⟨"", 0, [wp1, wp0]⟩
         (Reachable.step (Command.joinQueue wp1) ⟨"m1", 0, []⟩
           (Reachable.step (Command.joinQueue wp0) ⟨"m1", 0, []⟩
             Reachable.init trivial)
           trivial)
         (by intro m hm
             rw [show ((processCommand 2 ⟨"m1", 0, []⟩
                 (processCommand 2 ⟨"m1", 0, []⟩ initialState
                   (Command.joinQueue wp0)).state
                 (Command.joinQueue wp1)).state.GetMatch "m1")
               = some (⟨"m1", .accepting, [wp0, wp1], [], 30, (default, default),
                 [], [], [], 0, 0, 0⟩ : Match) from by decide] at hm
             obtain rfl : (⟨"m1", .accepting, [wp0, wp1], [], 30,
                 (default, default), [], [], [], 0, 0, 0⟩ : Match) = m := by
               injection hm
             decide))
       (by intro m hm
           rw [show ((processCommand 2 ⟨"", 0, [wp1, wp0]⟩
               (processCommand 2 ⟨"m1", 0, []⟩
                 (processCommand 2 ⟨"m1", 0, []⟩ initialState
                   (Command.joinQueue wp0)).state
                 (Command.joinQueue wp1)).state
               (Command.acceptMatch "p0" "m1")).state.GetMatch "m1")
             = some (⟨"m1", .accepting, [wp0, wp1], ["p0"], 30, (default, default),
               [], [], [], 0, 0, 0⟩ : Match) from by decide] at hm
           obtain rfl : (⟨"m1", .accepting, [wp0, wp1], ["p0"], 30,
               (default, default), [], [], [], 0, 0, 0⟩ : Match) = m := by
             injection hm
           decide))⟩

/-- C4: every reachable state ends a command's processing with fewer than
`MaxPlayers` queued players, because whenever a handler leaves the queue at
`MaxPlayers` or more the shared queue check runs `startMatchAcceptance`,
which pops exactly the first `MaxPlayers` players into a fresh match in the
Accepting state with an empty accepted set and deadline now + 30s — the same
pop/deadline/timer logic the JoinQueue path uses. -/
theorem C4_cascading_rematch (mp : Nat) (s : State) (h2 : 2 ≤ mp)
    (hr : Reachable mp s) :
    s.queue.length < mp ∧
    ∀ (env : Env) (s₀ : State), mp ≤ s₀.queue.length →
      checkQueue mp env s₀ = startMatchAcceptance mp env s₀ ∧
      ∃ m, (startMatchAcceptance mp env s₀).1.GetMatch env.newId = some m ∧
        m.state = MatchState.accepting ∧
        m.players = s₀.queue.take mp ∧
        m.acceptedPlayers = [] ∧
        m.acceptDeadline = env.now + MatchAcceptTimeoutDur := by
  refine ⟨(inv_reachable h2 hr).2, ?_⟩
  intro env s₀ h
  refine ⟨by unfold checkQueue; rw [if_pos h], ?_⟩
  refine ⟨acceptingMatch mp env s₀, ?_, rfl, rfl, rfl, rfl⟩
  rw [startMA_eq]
  show lookupMatch env.newId
    (setMatch env.newId (acceptingMatch mp env s₀) s₀.«matches») = _
  exact lookup_setMatch _ _ _

/-- Witness for C4 at `MaxPlayers` = 10: the initial state's queue is below
the bound, and a ten-player queue triggers match creation on the check. -/
theorem C4_witness :
    initialState.queue.length < 10 ∧
    (checkQueue 10 wEnv wTenState = startMatchAcceptance 10 wEnv wTenState) ∧
    ∃ m, (startMatchAcceptance 10 wEnv wTenState).1.GetMatch wEnv.newId = some m ∧
      m.state = MatchState.accepting ∧
      m.players = wTenState.queue.take 10 ∧
      m.acceptedPlayers = [] ∧
      m.acceptDeadline = wEnv.now + MatchAcceptTimeoutDur :=
  ⟨(C4_cascading_rematch 10 initialState (by omega) Reachable.init).1,
   ((C4_cascading_rematch 10 initialState (by omega) Reachable.init).2 wEnv
     wTenState (by decide)).1,
   ((C4_cascading_rematch 10 initialState (by omega) Reachable.init).2 wEnv
     wTenState (by decide)).2⟩

end DotaInhouse